import Mathlib

/-!
The C code generator of Puffs (`cmd/internal/cgen/cgen.go`) and the embedder of its
templates (`internal/cgen/gen.go`).

A shallow embedding of the generator: a `bytes.Buffer` is the text written so far and
every writer returns the buffer after the call together with the Go `error` it returns
(`none` for `nil`).  Text is modelled by `String`.
-/

namespace Cgen

/-- A `token.ID`. -/
abbrev ID := Nat

/-- A `token.Key`. -/
abbrev Key := Nat

/-- A Go `error`, identified with its message. -/
abbrev Error := String

/-- A `token.IDMap`, seen through `ID.String(m)`: the name an ID stands for. -/
abbrev IDMap := ID → String

/-- One node of a type expression: what `PackageOrDecorator()`, `Name()` and
`ArrayLength().ConstValue()` return for it. -/
structure TypeNode where
  packageOrDecorator : ID
  name : ID
  arrayLength : Int
  deriving DecidableEq, Repr

/-- An `*ast.TypeExpr`: the chain of nodes linked by `Inner()`, outermost first.
The nil pointer is the empty chain. -/
abbrev TypeExpr := List TypeNode

/-- An `*ast.Field`. -/
structure Field where
  name : ID
  xType : TypeExpr
  deriving DecidableEq, Repr

/-- An `*ast.Struct`. -/
structure Struct where
  name : ID
  suspendible : Bool
  fields : List Field
  deriving DecidableEq, Repr

/-- A top-level declaration: a node of kind `KStruct`, or of another kind. -/
inductive Node where
  | kStruct (n : Struct)
  | other
  deriving DecidableEq, Repr

/-- An `*ast.File`, seen through `TopLevelDecls()`. -/
structure File where
  topLevelDecls : List Node
  deriving DecidableEq, Repr

/-- What `cgen.go` takes from outside the file: the constants of package `token`
(`IDOpenBracket`, `ID.Key`, the `Key*` constants), `TypeExpr.String` of package `ast`,
the `%q` verb of `fmt`, the `preamble` constant and the `clang-format` process
(its standard output for a standard input, or the error of `cmd.Run`). -/
structure Deps where
  IDOpenBracket : ID
  key : ID → Key
  KeyI8 : Key
  KeyI16 : Key
  KeyI32 : Key
  KeyI64 : Key
  KeyU8 : Key
  KeyU16 : Key
  KeyU32 : Key
  KeyU64 : Key
  KeyUsize : Key
  KeyBool : Key
  typeString : TypeExpr → IDMap → String
  quote : String → String
  preamble : String
  clangFormat : String → Except Error String

/-- The indexed elements of the composite literal `cTypeNames`, as written. -/
def cTypeNamesLiteral (d : Deps) : List (Key × String) :=
  [ (d.KeyI8, "int8_t"),
    (d.KeyI16, "int16_t"),
    (d.KeyI32, "int32_t"),
    (d.KeyI64, "int64_t"),
    (d.KeyU8, "uint8_t"),
    (d.KeyU16, "uint16_t"),
    (d.KeyU32, "uint32_t"),
    (d.KeyU64, "uint64_t"),
    (d.KeyUsize, "size_t"),
    (d.KeyBool, "bool") ]

/-- The keys of the literal; Go rejects a literal that repeats an index. -/
def cTypeKeys (d : Deps) : List Key := (cTypeNamesLiteral d).map Prod.fst

/-- The array `cTypeNames`: its length is the largest index plus one and the
elements the literal does not name are the empty string. -/
def cTypeNames (d : Deps) : List String :=
  (List.range ((cTypeKeys d).foldl max 0 + 1)).map
    (fun k => (((cTypeNamesLiteral d).find? (fun e => e.1 == k)).map Prod.snd).getD "")

/-- The first loop of `writeField`: the buffer and `convertible` when the loop is left. -/
def writeFieldConvert (d : Deps) : String → TypeExpr → String × Bool
  | b, [] => (b, true)
  | b, x :: inner =>
    if x.packageOrDecorator ≠ 0 ∧ x.packageOrDecorator ≠ d.IDOpenBracket then
      (b, false)
    else if !inner.isEmpty then
      writeFieldConvert d b inner
    else if d.key x.name < (cTypeNames d).length then
      if (cTypeNames d).getD (d.key x.name) "" ≠ "" then
        writeFieldConvert d (b ++ (cTypeNames d).getD (d.key x.name) "" ++ " ") inner
      else
        (b, false)
    else
      (b, false)

/-- The second loop of `writeField`: one bracket group per array node. -/
def writeFieldBrackets (d : Deps) : String → TypeExpr → String
  | b, [] => b
  | b, x :: inner =>
    if x.packageOrDecorator = d.IDOpenBracket then
      writeFieldBrackets d (b ++ "[" ++ toString x.arrayLength ++ "]") inner
    else
      writeFieldBrackets d b inner

/-- The error `writeField` returns for an unconvertible type. -/
def unconvertible (d : Deps) (m : IDMap) (n : Field) : Error :=
  "cannot convert Puffs type " ++ d.quote (d.typeString n.xType m) ++ " to C"

/-- The function `writeField`. -/
def writeField (d : Deps) (b : String) (m : IDMap) (n : Field) : String × Option Error :=
  match writeFieldConvert d b n.xType with
  | (b, false) => (b, some (unconvertible d m n))
  | (b, true) =>
    let b := b ++ "f_"
    let b := b ++ m n.name
    let b := writeFieldBrackets d b n.xType
    (b ++ ";\n", none)

/-- The loop of `writeStruct` over the fields, left at the first error. -/
def writeStructFields (d : Deps) (m : IDMap) : String → List Field → String × Option Error
  | b, [] => (b, none)
  | b, f :: fs =>
    match writeField d b m f with
    | (b, some err) => (b, some err)
    | (b, none) => writeStructFields d m b fs

/-- The function `writeStruct`. -/
def writeStruct (d : Deps) (b : String) (pkgName : String) (m : IDMap) (n : Struct) :
    String × Option Error :=
  let structName := m n.name
  let b := b ++ "typedef struct \x7b\n"
  let b := if n.suspendible then b ++ "puffs_" ++ pkgName ++ "_status status;\n" else b
  match writeStructFields d m b n.fields with
  | (b, some err) => (b, some err)
  | (b, none) => (b ++ "\x7d puffs_" ++ pkgName ++ "_" ++ structName ++ ";\n\n", none)

/-- The function `writeCtorPrototypes`. -/
def writeCtorPrototypes (b : String) (pkgName : String) (m : IDMap) (n : Struct) :
    String × Option Error :=
  if !n.suspendible then
    (b, none)
  else
    let structName := m n.name
    let b := ["constructor", "destructor"].foldl
      (fun b ctor =>
        b ++ "void puffs_" ++ pkgName ++ "_" ++ structName ++ "_" ++ ctor ++
          "(puffs_" ++ pkgName ++ "_" ++ structName ++ " *self);\n\n") b
    (b, none)

/-- The function `writeCtorImpls`. -/
def writeCtorImpls (b : String) (pkgName : String) (m : IDMap) (n : Struct) :
    String × Option Error :=
  if !n.suspendible then
    (b, none)
  else
    let structName := m n.name
    let b := ["constructor", "destructor"].foldl
      (fun b ctor =>
        let b := b ++ "void puffs_" ++ pkgName ++ "_" ++ structName ++ "_" ++ ctor ++
          "(puffs_" ++ pkgName ++ "_" ++ structName ++ " *self) \x7b\n"
        let b := if ctor = "constructor" then b ++ "memset(self, 0, sizeof(*self));\n" else b
        b ++ "\x7d\n\n") b
    (b, none)

/-- What a call of `Generate` returns and does: the bytes and the error it returns, and
the texts it piped into `clang-format`, in order. -/
structure Result where
  bytes : Option String
  err : Option Error
  formatted : List String
  deriving DecidableEq, Repr

/-- The function `format`: runs `clang-format` on the buffer. -/
def format (d : Deps) (rawSource : String) : Result :=
  match d.clangFormat rawSource with
  | .error err => { bytes := none, err := some err, formatted := [rawSource] }
  | .ok stdout => { bytes := some stdout, err := none, formatted := [rawSource] }

/-- The inner loop `for _, n := range f.TopLevelDecls()` of `Generate`, running the
writer `w` on every declaration of kind `KStruct` and left at the first error. -/
def forEachDecl (w : String → Struct → String × Option Error) :
    String → List Node → String × Option Error
  | b, [] => (b, none)
  | b, Node.kStruct n :: ns =>
    match w b n with
    | (b, some err) => (b, some err)
    | (b, none) => forEachDecl w b ns
  | b, Node.other :: ns => forEachDecl w b ns

/-- The outer loop `for _, f := range files` of `Generate`. -/
def forEachFile (w : String → Struct → String × Option Error) :
    String → List File → String × Option Error
  | b, [] => (b, none)
  | b, f :: fs =>
    match forEachDecl w b f.topLevelDecls with
    | (b, some err) => (b, some err)
    | (b, none) => forEachFile w b fs

/-- The `Generator` struct.  `Extension` is a byte that `%c` prints as the character with
that code point, so it is kept as that character. -/
structure Generator where
  Extension : Char
  deriving DecidableEq, Repr

/-- The method `Generate`. -/
def Generate (d : Deps) (g : Generator) (pkgName : String) (m : IDMap) (files : List File) :
    Result :=
  let b := ""
  let b := b ++ "// Code generated by puffs-gen-" ++ String.singleton g.Extension ++
    ". DO NOT EDIT.\n\n"
  let b := b ++ d.preamble
  let b := b ++ "\n#ifdef __cplusplus\nextern \"C\" \x7b\n#endif\n\n"
  let b := b ++ "// ---------------- Status Codes\n\n"
  let b := b ++ "typedef enum \x7b\n"
  let b := b ++ "puffs_" ++ pkgName ++ "_status_ok = 0,\n"
  let b := b ++ "puffs_" ++ pkgName ++ "_status_short_dst = -1,\n"
  let b := b ++ "puffs_" ++ pkgName ++ "_status_short_src = -2,\n"
  let b := b ++ "\x7d puffs_" ++ pkgName ++ "_status;\n\n"
  let b := b ++ "// ---------------- Structs\n\n"
  match forEachFile (fun b n => writeStruct d b pkgName m n) b files with
  | (_, some err) => { bytes := none, err := some err, formatted := [] }
  | (b, none) =>
    let b := b ++ "// ---------------- Constructor and Destructor Prototypes\n\n"
    match forEachFile (fun b n => writeCtorPrototypes b pkgName m n) b files with
    | (_, some err) => { bytes := none, err := some err, formatted := [] }
    | (b, none) =>
      let b := b ++ "\n#ifdef __cplusplus\n\x7d  // extern \"C\"\n#endif\n\n"
      if g.Extension = 'h' then
        format d b
      else
        let b := b ++ "// ---------------- Constructor and Destructor Implementations\n\n"
        match forEachFile (fun b n => writeCtorImpls b pkgName m n) b files with
        | (_, some err) => { bytes := none, err := some err, formatted := [] }
        | (b, none) => format d b


/-! ## Vocabulary of the statements -/

/-- The struct a top-level declaration is, when its kind is `KStruct`. -/
def Node.struct? : Node → Option Struct
  | Node.kStruct n => some n
  | Node.other => none

/-- The struct declarations in source order: files in list order, then the top-level
declarations of each file in order. -/
def structsOf (files : List File) : List Struct :=
  files.flatMap (fun f => f.topLevelDecls.filterMap Node.struct?)

/-- The fields in source order: structs in source order, then fields in declaration order. -/
def fieldsOf (files : List File) : List Field :=
  (structsOf files).flatMap (fun n => n.fields)

/-- The text a writer appends for one struct: what it writes into an empty buffer. -/
def textOf (w : String → Struct → String × Option Error) (n : Struct) : String := (w "" n).1

/-- The line `writeField` appends for a field: what it writes into an empty buffer. -/
def fieldLine (d : Deps) (m : IDMap) (f : Field) : String := (writeField d "" m f).1

/-- The field is unconvertible: `writeField` returns an error on it. -/
def fails (d : Deps) (m : IDMap) (f : Field) : Bool := (writeField d "" m f).2.isSome

/-- A writer that appends: its error does not depend on the buffer and its text is added at
the end of the buffer. -/
def Appends (w : String → Struct → String × Option Error) : Prop :=
  ∀ b n, w b n = (b ++ (w "" n).1, (w "" n).2)

/-- The name the table gives the key of the last node of the field type. -/
def terminalCType (d : Deps) (f : Field) : String :=
  match f.xType.getLast? with
  | some x => (cTypeNames d).getD (d.key x.name) ""
  | none => ""

/-- The field type is a primitive of the table: one node, without package or decorator,
whose key has a non-empty name in `cTypeNames`. -/
def IsPrimitiveField (d : Deps) (f : Field) : Prop :=
  ∃ x, f.xType = [x] ∧ x.packageOrDecorator = 0 ∧ (cTypeNames d).getD (d.key x.name) "" ≠ ""

/-- The status field line of a suspendible struct. -/
def statusLine (pkgName : String) : String := "puffs_" ++ pkgName ++ "_status status;\n"

/-- The text `part` occurs in the text `text` as a run of consecutive characters. -/
def occursIn (part text : String) : Prop := part.data <:+: text.data

instance (part text : String) : Decidable (occursIn part text) := by
  unfold occursIn
  infer_instance


/-- Sample values for what comes from outside the file, to evaluate the generator on
concrete declarations: pairwise different keys, a formatter that returns its input. -/
def sampleDeps : Deps where
  IDOpenBracket := 7
  key := fun i => i
  KeyI8 := 1
  KeyI16 := 2
  KeyI32 := 3
  KeyI64 := 4
  KeyU8 := 5
  KeyU16 := 6
  KeyU32 := 8
  KeyU64 := 9
  KeyUsize := 10
  KeyBool := 12
  typeString := fun t m =>
    String.join (t.map (fun x =>
      if x.packageOrDecorator = 7 then "[" ++ toString x.arrayLength ++ "] "
      else if x.packageOrDecorator = 0 then m x.name
      else m x.packageOrDecorator ++ "." ++ m x.name))
  quote := fun s => "\"" ++ s ++ "\""
  preamble := ""
  clangFormat := fun s => Except.ok s

/-- Sample names: the primitive keys of `sampleDeps` and a few identifiers. -/
def sampleNames : IDMap := fun i =>
  if i = 1 then "i8" else if i = 8 then "u32" else if i = 20 then "other"
  else if i = 100 then "name" else if i = 101 then "x" else if i = 102 then "y"
  else if i = 103 then "point" else if i = 104 then "decoder" else ""

/-- Sample declarations with two unconvertible fields: `y` of struct `point` has a
package-qualified type and `name` of struct `decoder` is an array of an unknown key. -/
def sampleBadFiles : List File :=
  [ ⟨[Node.other, Node.kStruct ⟨103, false, [⟨101, [⟨0, 8, 0⟩]⟩, ⟨102, [⟨20, 1, 0⟩]⟩]⟩]⟩,
    ⟨[Node.kStruct ⟨104, true, [⟨100, [⟨7, 0, 4⟩, ⟨0, 11, 0⟩]⟩]⟩]⟩ ]

/-- The sample struct `point`: not suspendible, fields `x: u32`, `y: u32`. -/
def samplePoint : Struct := ⟨103, false, [⟨101, [⟨0, 8, 0⟩]⟩, ⟨102, [⟨0, 8, 0⟩]⟩]⟩

/-- The sample struct `decoder`: suspendible, no fields. -/
def sampleDecoder : Struct := ⟨104, true, []⟩

/-- Sample declarations without unconvertible field. -/
def sampleFiles : List File :=
  [⟨[Node.kStruct samplePoint, Node.other]⟩, ⟨[Node.kStruct sampleDecoder]⟩]


/-! ## The template embedder (`internal/cgen/gen.go`)

A byte slice is a list of byte values.  What `writeStringConst` appends to `out` is kept as
the list of the pieces it writes, one piece per call of `Fprintf` or `WriteString`. -/

/-- A byte, as its value. -/
abbrev Byte := Nat

/-- The bytes of an ASCII text. -/
def ascii (s : String) : List Byte := s.data.map Char.toNat

/-- The function `bytes.HasPrefix`. -/
def hasPrefix (s p : List Byte) : Bool := p.isPrefixOf s

/-- The function `bytes.Index`: the index of the first instance of `sep` in `s`, and `none`
for the -1 it returns when there is no instance. -/
def bytesIndex : List Byte → List Byte → Option Nat
  | [], sep => if sep.isPrefixOf [] then some 0 else none
  | b :: s, sep =>
    if sep.isPrefixOf (b :: s) then some 0 else (bytesIndex s sep).map (fun i => i + 1)

/-- The constant `columns`. -/
def columns : Nat := 1024

/-- The variable `dashDashDashDash`. -/
def dashDashDashDash : List Byte := ascii "// ----"

/-- One write into `out`: `quoted t` is `fmt.Fprintf(out, "%q +\n", t)`, a quoted literal
holding the bytes `t`, and `text s` is `out.WriteString(s)`. -/
inductive Piece where
  | quoted (t : List Byte)
  | text (s : String)
  deriving DecidableEq, Repr

/-- The inner loop of `writeStringConst`, run for at most `fuel` iterations: `none` when
the iterations run out, else `out` after the loop. -/
def writeStringConstWrap : Nat → List Piece → List Byte → Option (List Piece)
  | 0, out, s => if s.length > 0 then none else some out
  | fuel + 1, out, s =>
    if s.length > 0 then
      let t := s
      let t := if t.length > columns then t.take columns else t
      let s := s.drop t.length
      writeStringConstWrap fuel (out ++ [Piece.quoted t]) s
    else
      some out

/-- The first statements of the body of the outer loop of `writeStringConst`: the section
`s` and `remaining`. -/
def splitSection (s : List Byte) : List Byte × List Byte :=
  match bytesIndex (s.drop 1) dashDashDashDash with
  | some i => (s.take (i + 1), s.drop (i + 1))
  | none => (s, [])

/-- The function `writeStringConst`, each of its loops run for at most `fuel` iterations:
`none` when the iterations run out, else `out` after the call. -/
def writeStringConst : Nat → List Piece → List Byte → Option (List Piece)
  | 0, out, s => if s.length > 0 then none else some out
  | fuel + 1, out, s =>
    if s.length > 0 then
      match writeStringConstWrap (fuel + 1) out (splitSection s).1 with
      | none => none
      | some out =>
        let s := (splitSection s).2
        let out := if s.length > 0 then out ++ [Piece.text "\"\" +\n"] else out
        writeStringConst fuel out s
    else
      some out

/-- The checks and the stripping in the body of the loop of `genBase`, for the content `inp`
of the file `filename` and the `copyright` found so far: the error it returns, or the new
`copyright` and the bytes it passes to `writeStringConst`.  The `%q` verb is `quote`. -/
def genBaseStrip (quote : List Byte → String) (filename : String) (copyright inp : List Byte) :
    Except Error (List Byte × List Byte) :=
  if !hasPrefix inp (ascii "// After editing this file,") then
    Except.error (filename ++ "\x27s contents do not start with " ++
      quote (ascii "// After editing this file,"))
  else
    let inp := match bytesIndex inp (ascii "\n\n") with
      | some i => inp.drop (i + 2)
      | none => inp
    if !hasPrefix inp (ascii "// Copyright ") then
      Except.error (filename ++ "\x27s contents do not start with " ++
        quote (ascii "// Copyright "))
    else
      match bytesIndex inp (ascii "\n\n") with
      | some i =>
        Except.ok (if copyright.length = 0 then inp.take (i + 2) else copyright, inp.drop (i + 2))
      | none => Except.ok (copyright, inp)

/-- The bytes a piece holds: those of a quoted literal, none for a text such as the
separator `"" +`. -/
def Piece.content : Piece → List Byte
  | Piece.quoted t => t
  | Piece.text _ => []

/-- The offsets in the content at which the text pieces (the separators `"" +`) stand:
for each the number of bytes the quoted literals before it hold, counted from `n`. -/
def sepOffsets : Nat → List Piece → List Nat
  | _, [] => []
  | n, Piece.quoted t :: ps => sepOffsets (n + t.length) ps
  | n, Piece.text _ :: ps => n :: sepOffsets n ps

/-- A quoted literal followed at once by another quoted literal is a full line of
`columns` bytes. -/
def FullBefore (p q : Piece) : Prop :=
  ∀ t u, p = Piece.quoted t → q = Piece.quoted u → t.length = columns

/-- The layout name `puffs_<pkg>_<struct>` of a struct. -/
def layoutName (pkgName : String) (m : IDMap) (n : Struct) : String :=
  "puffs_" ++ pkgName ++ "_" ++ m n.name

/-- The head of a lifecycle function, up to the closing parenthesis of its parameter. -/
def ctorHead (pkgName : String) (m : IDMap) (n : Struct) (op : String) : String :=
  "void " ++ layoutName pkgName m n ++ "_" ++ op ++ "(" ++ layoutName pkgName m n ++ " *self)"

/-- The sample values with a formatter that fails on every text. -/
def sampleFailingDeps : Deps :=
  { sampleDeps with clangFormat := fun _ => Except.error "exit status 1" }

/-! ## The writers append to the buffer -/

theorem writeFieldConvert_cons_cons (d : Deps) (b : String) (x y : TypeNode) (t : TypeExpr) :
    writeFieldConvert d b (x :: y :: t) =
      if x.packageOrDecorator ≠ 0 ∧ x.packageOrDecorator ≠ d.IDOpenBracket then (b, false)
      else writeFieldConvert d b (y :: t) := by
  rw [writeFieldConvert]
  simp

theorem writeFieldConvert_single (d : Deps) (b : String) (x : TypeNode) :
    writeFieldConvert d b [x] =
      if x.packageOrDecorator ≠ 0 ∧ x.packageOrDecorator ≠ d.IDOpenBracket then (b, false)
      else if (cTypeNames d).getD (d.key x.name) "" ≠ "" then
        (b ++ (cTypeNames d).getD (d.key x.name) "" ++ " ", true)
      else (b, false) := by
  simp only [writeFieldConvert, List.isEmpty_nil]
  by_cases hk : d.key x.name < (cTypeNames d).length
  · simp [hk]
  · have : (cTypeNames d)[d.key x.name]?.getD "" = "" := by
      simp [List.getElem?_eq_none (Nat.le_of_not_lt hk)]
    simp [hk, this]

theorem writeFieldConvert_append (d : Deps) (b : String) (t : TypeExpr) :
    writeFieldConvert d b t =
      (b ++ (writeFieldConvert d "" t).1, (writeFieldConvert d "" t).2) := by
  induction t with
  | nil => simp [writeFieldConvert]
  | cons x inner ih =>
    cases inner with
    | nil =>
      simp only [writeFieldConvert_single]
      split_ifs <;> simp [String.append_assoc]
    | cons y t =>
      simp only [writeFieldConvert_cons_cons]
      split_ifs
      · simp
      · exact ih

theorem writeFieldBrackets_append (d : Deps) (b : String) (t : TypeExpr) :
    writeFieldBrackets d b t = b ++ writeFieldBrackets d "" t := by
  induction t generalizing b with
  | nil => simp [writeFieldBrackets]
  | cons x inner ih =>
    simp only [writeFieldBrackets]
    split_ifs
    · rw [ih, ih ("" ++ "[" ++ toString x.arrayLength ++ "]")]
      simp [String.append_assoc]
    · exact ih b

theorem writeField_append (d : Deps) (b : String) (m : IDMap) (n : Field) :
    writeField d b m n = (b ++ (writeField d "" m n).1, (writeField d "" m n).2) := by
  unfold writeField
  rw [writeFieldConvert_append d b]
  rcases writeFieldConvert d "" n.xType with ⟨s, c⟩
  cases c
  · simp
  · simp only
    rw [writeFieldBrackets_append, writeFieldBrackets_append d (s ++ "f_" ++ m n.name)]
    simp [String.append_assoc]

theorem writeStructFields_append (d : Deps) (m : IDMap) (b : String) (fs : List Field) :
    writeStructFields d m b fs =
      (b ++ (writeStructFields d m "" fs).1, (writeStructFields d m "" fs).2) := by
  induction fs generalizing b with
  | nil => simp [writeStructFields]
  | cons f fs ih =>
    simp only [writeStructFields]
    rw [writeField_append d b]
    rcases writeField d "" m f with ⟨s, e⟩
    cases e with
    | some err => simp
    | none =>
      simp only
      rw [ih, ih s]
      simp [String.append_assoc]


theorem join_cons (s : String) (l : List String) : String.join (s :: l) = s ++ String.join l := by
  apply String.ext
  simp

theorem join_nil : String.join [] = "" := rfl

theorem join_append (l₁ l₂ : List String) :
    String.join (l₁ ++ l₂) = String.join l₁ ++ String.join l₂ := by
  apply String.ext
  simp

theorem writeStructFields_err (d : Deps) (m : IDMap) (b : String) (fs : List Field) :
    (writeStructFields d m b fs).2 = fs.findSome? (fun f => (writeField d "" m f).2) := by
  induction fs generalizing b with
  | nil => simp [writeStructFields]
  | cons f fs ih =>
    simp only [writeStructFields, List.findSome?_cons]
    rw [writeField_append d b]
    rcases writeField d "" m f with ⟨s, e⟩
    cases e with
    | some err => simp
    | none => simpa using ih _

theorem writeStructFields_ok (d : Deps) (m : IDMap) (b : String) (fs : List Field)
    (h : ∀ f ∈ fs, (writeField d "" m f).2 = none) :
    writeStructFields d m b fs = (b ++ String.join (fs.map (fieldLine d m)), none) := by
  induction fs generalizing b with
  | nil => simp [writeStructFields, join_nil]
  | cons f fs ih =>
    have hf := h f (List.mem_cons_self _ _)
    simp only [writeStructFields, List.map_cons, join_cons]
    rw [writeField_append d b, hf]
    simp only
    rw [ih _ (fun g hg => h g (List.mem_cons_of_mem _ hg))]
    simp [fieldLine, String.append_assoc]

theorem writeStruct_append (d : Deps) (b pkgName : String) (m : IDMap) (n : Struct) :
    writeStruct d b pkgName m n =
      (b ++ (writeStruct d "" pkgName m n).1, (writeStruct d "" pkgName m n).2) := by
  unfold writeStruct
  simp only
  rw [writeStructFields_append d m (if n.suspendible = true then _ else _),
    writeStructFields_append d m (if n.suspendible = true then "" ++ _ ++ _ ++ _ ++ _ else _)]
  rcases writeStructFields d m "" n.fields with ⟨s, e⟩
  cases e <;> cases n.suspendible <;> simp [String.append_assoc]

theorem writeStruct_err (d : Deps) (b pkgName : String) (m : IDMap) (n : Struct) :
    (writeStruct d b pkgName m n).2 = n.fields.findSome? (fun f => (writeField d "" m f).2) := by
  unfold writeStruct
  simp only
  rw [← writeStructFields_err d m (if n.suspendible = true then _ else _) n.fields]
  rcases writeStructFields d m _ n.fields with ⟨s, e⟩
  cases e <;> rfl

theorem writeStruct_ok (d : Deps) (b pkgName : String) (m : IDMap) (n : Struct)
    (h : ∀ f ∈ n.fields, (writeField d "" m f).2 = none) :
    writeStruct d b pkgName m n =
      (b ++ "typedef struct \x7b\n" ++
        (if n.suspendible then "puffs_" ++ pkgName ++ "_status status;\n" else "") ++
        String.join (n.fields.map (fieldLine d m)) ++
        "\x7d puffs_" ++ pkgName ++ "_" ++ m n.name ++ ";\n\n", none) := by
  unfold writeStruct
  simp only
  rw [writeStructFields_ok d m _ n.fields h]
  cases n.suspendible <;>
    simp only [String.append_assoc, String.append_empty, String.empty_append, if_true,
      Bool.false_eq_true, if_false]

theorem writeCtorPrototypes_eq (b pkgName : String) (m : IDMap) (n : Struct) :
    writeCtorPrototypes b pkgName m n =
      (b ++ (if n.suspendible then
          "void puffs_" ++ pkgName ++ "_" ++ m n.name ++ "_constructor(puffs_" ++ pkgName ++
            "_" ++ m n.name ++ " *self);\n\n" ++
          "void puffs_" ++ pkgName ++ "_" ++ m n.name ++ "_destructor(puffs_" ++ pkgName ++
            "_" ++ m n.name ++ " *self);\n\n"
        else ""), none) := by
  unfold writeCtorPrototypes
  cases n.suspendible <;>
    simp only [String.append_assoc, String.append_empty, String.empty_append, if_true,
      Bool.false_eq_true, if_false, Bool.not_true, Bool.not_false, List.foldl_cons,
      List.foldl_nil]
  rfl

theorem writeCtorImpls_eq (b pkgName : String) (m : IDMap) (n : Struct) :
    writeCtorImpls b pkgName m n =
      (b ++ (if n.suspendible then
          "void puffs_" ++ pkgName ++ "_" ++ m n.name ++ "_constructor(puffs_" ++ pkgName ++
            "_" ++ m n.name ++ " *self) \x7b\n" ++
          "memset(self, 0, sizeof(*self));\n" ++
          "\x7d\n\n" ++
          "void puffs_" ++ pkgName ++ "_" ++ m n.name ++ "_destructor(puffs_" ++ pkgName ++
            "_" ++ m n.name ++ " *self) \x7b\n" ++
          "\x7d\n\n"
        else ""), none) := by
  unfold writeCtorImpls
  cases n.suspendible <;>
    simp only [String.append_assoc, String.append_empty, String.empty_append, if_true,
      Bool.false_eq_true, if_false, Bool.not_true, Bool.not_false, List.foldl_cons,
      List.foldl_nil, String.reduceEq]
  rfl

theorem writeStruct_appends (d : Deps) (pkgName : String) (m : IDMap) :
    Appends (fun b n => writeStruct d b pkgName m n) :=
  fun b n => writeStruct_append d b pkgName m n

theorem writeCtorPrototypes_appends (pkgName : String) (m : IDMap) :
    Appends (fun b n => writeCtorPrototypes b pkgName m n) := by
  intro b n
  simp only [writeCtorPrototypes_eq]
  simp

theorem writeCtorImpls_appends (pkgName : String) (m : IDMap) :
    Appends (fun b n => writeCtorImpls b pkgName m n) := by
  intro b n
  simp only [writeCtorImpls_eq]
  simp


theorem findSome?_flatMap_eq {α β γ : Type} (l : List α) (f : α → List β) (g : β → Option γ) :
    (l.flatMap f).findSome? g = l.findSome? (fun a => (f a).findSome? g) := by
  induction l with
  | nil => rfl
  | cons a l ih =>
    rw [List.flatMap_cons, List.findSome?_append, List.findSome?_cons, ih]
    cases (f a).findSome? g <;> rfl

theorem forEachDecl_err (w : String → Struct → String × Option Error) (hw : Appends w)
    (b : String) (ns : List Node) :
    (forEachDecl w b ns).2 = (ns.filterMap Node.struct?).findSome? (fun n => (w "" n).2) := by
  induction ns generalizing b with
  | nil => rfl
  | cons x ns ih =>
    cases x with
    | other => simpa [forEachDecl, Node.struct?] using ih b
    | kStruct n =>
      simp only [forEachDecl, List.filterMap_cons, Node.struct?, List.findSome?_cons]
      rw [hw b n]
      rcases w "" n with ⟨s, e⟩
      cases e with
      | some err => rfl
      | none => exact ih _

theorem forEachDecl_ok (w : String → Struct → String × Option Error) (hw : Appends w)
    (b : String) (ns : List Node)
    (h : ∀ n ∈ ns.filterMap Node.struct?, (w "" n).2 = none) :
    forEachDecl w b ns =
      (b ++ String.join ((ns.filterMap Node.struct?).map (textOf w)), none) := by
  induction ns generalizing b with
  | nil => simp [forEachDecl, join_nil]
  | cons x ns ih =>
    cases x with
    | other =>
      simp only [forEachDecl, List.filterMap_cons, Node.struct?]
      exact ih b (by simpa [Node.struct?] using h)
    | kStruct n =>
      have hn : (w "" n).2 = none := h n (by simp [Node.struct?])
      have ht : ∀ k ∈ ns.filterMap Node.struct?, (w "" k).2 = none := by
        intro k hk
        exact h k (by simp only [List.filterMap_cons, Node.struct?]; exact List.mem_cons_of_mem _ hk)
      simp only [forEachDecl, List.filterMap_cons, Node.struct?, List.map_cons, join_cons]
      rw [hw b n, hn]
      simp only
      rw [ih _ ht]
      simp only [textOf, String.append_assoc]

theorem forEachFile_err (w : String → Struct → String × Option Error) (hw : Appends w)
    (b : String) (files : List File) :
    (forEachFile w b files).2 = (structsOf files).findSome? (fun n => (w "" n).2) := by
  induction files generalizing b with
  | nil => rfl
  | cons f fs ih =>
    have hd := forEachDecl_err w hw b f.topLevelDecls
    simp only [forEachFile, structsOf, List.flatMap_cons, List.findSome?_append]
    rcases hfd : forEachDecl w b f.topLevelDecls with ⟨s, e⟩
    rw [hfd] at hd
    simp only at hd
    rw [← hd]
    cases e with
    | some err => rfl
    | none => exact ih s

theorem forEachFile_ok (w : String → Struct → String × Option Error) (hw : Appends w)
    (b : String) (files : List File) (h : ∀ n ∈ structsOf files, (w "" n).2 = none) :
    forEachFile w b files = (b ++ String.join ((structsOf files).map (textOf w)), none) := by
  induction files generalizing b with
  | nil => simp [forEachFile, structsOf, join_nil]
  | cons f fs ih =>
    have h1 : ∀ n ∈ f.topLevelDecls.filterMap Node.struct?, (w "" n).2 = none := by
      intro n hn
      exact h n (by simp only [structsOf, List.flatMap_cons]; exact List.mem_append_left _ hn)
    have h2 : ∀ n ∈ structsOf fs, (w "" n).2 = none := by
      intro n hn
      exact h n (by simp only [structsOf, List.flatMap_cons]; exact List.mem_append_right _ hn)
    simp only [forEachFile]
    rw [forEachDecl_ok w hw b _ h1]
    simp only
    rw [ih _ h2]
    simp only [structsOf, List.flatMap_cons, List.map_append, join_append, String.append_assoc]

/-- The error of the struct pass is the error of the first field, in source order, on
which `writeField` fails. -/
theorem structPass_err (d : Deps) (pkgName : String) (m : IDMap) (b : String)
    (files : List File) :
    (forEachFile (fun b n => writeStruct d b pkgName m n) b files).2 =
      (fieldsOf files).findSome? (fun f => (writeField d "" m f).2) := by
  rw [forEachFile_err _ (writeStruct_appends d pkgName m), fieldsOf, findSome?_flatMap_eq]
  congr 1
  funext n
  exact writeStruct_err d "" pkgName m n

theorem findSome?_eq_none_of_forall {α β : Type} (l : List α) (g : α → Option β)
    (h : ∀ a ∈ l, g a = none) : l.findSome? g = none := by
  induction l with
  | nil => rfl
  | cons a l ih =>
    rw [List.findSome?_cons, h a (List.mem_cons_self _ _)]
    exact ih (fun x hx => h x (List.mem_cons_of_mem _ hx))

theorem findSome?_of_find? {α β : Type} (l : List α) (g : α → Option β) (a : α)
    (h : l.find? (fun x => (g x).isSome) = some a) : l.findSome? g = g a ∧ (g a).isSome := by
  induction l with
  | nil => simp at h
  | cons x l ih =>
    rw [List.find?_cons] at h
    cases hx : g x with
    | some e =>
      rw [hx] at h
      simp only [Option.isSome_some, Option.some.injEq] at h
      subst h
      simp [List.findSome?_cons, hx]
    | none =>
      rw [hx] at h
      simp only [Option.isSome_none] at h
      rw [List.findSome?_cons, hx]
      exact ih h


/-! ## The table `cTypeNames` -/

theorem le_foldl_max (l : List Nat) (a k : Nat) (h : k ≤ a ∨ k ∈ l) : k ≤ l.foldl max a := by
  induction l generalizing a with
  | nil =>
    rcases h with h | h
    · exact h
    · simp at h
  | cons x l ih =>
    rw [List.foldl_cons]
    apply ih
    rcases h with h | h
    · exact Or.inl (le_trans h (le_max_left _ _))
    · rcases List.mem_cons.1 h with h | h
      · exact Or.inl (h ▸ le_max_right _ _)
      · exact Or.inr h

theorem find?_key_of_nodup (l : List (Key × String)) (k : Key) (s : String)
    (hn : (l.map Prod.fst).Nodup) (h : (k, s) ∈ l) :
    l.find? (fun e => e.1 == k) = some (k, s) := by
  induction l with
  | nil => simp at h
  | cons e l ih =>
    rw [List.map_cons, List.nodup_cons] at hn
    rcases List.mem_cons.1 h with h | h
    · subst h
      simp
    · have hne : e.1 ≠ k := by
        intro he
        apply hn.1
        rw [he]
        exact List.mem_map_of_mem Prod.fst h
      have hb : (e.1 == k) = false := by simpa using hne
      rw [List.find?_cons, hb]
      exact ih hn.2 h

/-- With pairwise different keys, `cTypeNames` holds at every key of the literal the name
written there. -/
theorem cTypeNames_get (d : Deps) (hn : (cTypeKeys d).Nodup) (k : Key) (s : String)
    (h : (k, s) ∈ cTypeNamesLiteral d) : (cTypeNames d)[k]? = some s := by
  have hk : k < (cTypeKeys d).foldl max 0 + 1 :=
    Nat.lt_succ_of_le (le_foldl_max _ 0 k (Or.inr (List.mem_map_of_mem Prod.fst h)))
  unfold cTypeNames
  rw [List.getElem?_map, List.getElem?_range hk, Option.map_some',
    find?_key_of_nodup _ k s hn h]
  rfl

theorem getD_of_getElem? (l : List String) (k : Nat) (s : String) (h : l[k]? = some s) :
    l.getD k "" = s := by
  simp [List.getD_eq_getElem?_getD, h]

/-! ## The two loops of `writeField` -/

theorem writeFieldConvert_arrays (d : Deps) (b : String) (arrs : List TypeNode) (x : TypeNode)
    (harr : ∀ a ∈ arrs, a.packageOrDecorator = d.IDOpenBracket) :
    writeFieldConvert d b (arrs ++ [x]) = writeFieldConvert d b [x] := by
  induction arrs with
  | nil => rfl
  | cons a arrs ih =>
    have ha := harr a (List.mem_cons_self _ _)
    have ht := ih (fun c hc => harr c (List.mem_cons_of_mem _ hc))
    cases arrs with
    | nil =>
      rw [List.cons_append, List.nil_append, writeFieldConvert_cons_cons]
      simp [ha]
    | cons c arrs =>
      rw [List.cons_append, List.cons_append, writeFieldConvert_cons_cons]
      rw [List.cons_append] at ht
      simp [ha, ht]

theorem writeFieldBrackets_arrays (d : Deps) (b : String) (arrs : List TypeNode)
    (rest : TypeExpr) (harr : ∀ a ∈ arrs, a.packageOrDecorator = d.IDOpenBracket) :
    writeFieldBrackets d b (arrs ++ rest) =
      writeFieldBrackets d
        (b ++ String.join (arrs.map (fun a => "[" ++ toString a.arrayLength ++ "]"))) rest := by
  induction arrs generalizing b with
  | nil => simp [join_nil]
  | cons a arrs ih =>
    have ha := harr a (List.mem_cons_self _ _)
    rw [List.cons_append, writeFieldBrackets, if_pos ha,
      ih _ (fun c hc => harr c (List.mem_cons_of_mem _ hc))]
    simp only [List.map_cons, join_cons, String.append_assoc]

/-- The first loop leaves `convertible` true exactly when no node carries a package or a
decorator other than the array one and the key of the last node, if there is one, has a
non-empty name in the table. -/
theorem writeFieldConvert_true_iff (d : Deps) (b : String) (t : TypeExpr) :
    (writeFieldConvert d b t).2 = true ↔
      (∀ x ∈ t, ¬ (x.packageOrDecorator ≠ 0 ∧ x.packageOrDecorator ≠ d.IDOpenBracket)) ∧
      (∀ x, t.getLast? = some x → (cTypeNames d).getD (d.key x.name) "" ≠ "") := by
  induction t with
  | nil => simp [writeFieldConvert]
  | cons x inner ih =>
    cases inner with
    | nil =>
      rw [writeFieldConvert_single]
      by_cases h1 : x.packageOrDecorator ≠ 0 ∧ x.packageOrDecorator ≠ d.IDOpenBracket
      · simp [h1]
      · by_cases h2 : (cTypeNames d).getD (d.key x.name) "" ≠ ""
        · rw [if_neg h1, if_pos h2]
          simp only [List.mem_singleton, forall_eq, List.getLast?_singleton, Option.some.injEq,
            true_iff]
          refine ⟨h1, ?_⟩
          intro z hz
          rw [← hz]
          exact h2
        · rw [if_neg h1, if_neg h2]
          simp only [List.mem_singleton, forall_eq, List.getLast?_singleton, Option.some.injEq]
          constructor
          · intro h
            cases h
          · intro h
            exact absurd (h.2 x rfl) h2
    | cons y t =>
      rw [writeFieldConvert_cons_cons]
      by_cases h1 : x.packageOrDecorator ≠ 0 ∧ x.packageOrDecorator ≠ d.IDOpenBracket
      · rw [if_pos h1]
        constructor
        · intro h
          cases h
        · intro h
          exact absurd h1 (h.1 x (List.mem_cons_self _ _))
      · rw [if_neg h1, ih, List.getLast?_cons_cons]
        constructor
        · intro h
          refine ⟨?_, h.2⟩
          intro z hz
          rcases List.mem_cons.1 hz with hz | hz
          · rw [hz]
            exact h1
          · exact h.1 z hz
        · intro h
          exact ⟨fun z hz => h.1 z (List.mem_cons_of_mem _ hz), h.2⟩

theorem writeField_err (d : Deps) (b : String) (m : IDMap) (n : Field) :
    (writeField d b m n).2 =
      if (writeFieldConvert d "" n.xType).2 = true then none else some (unconvertible d m n) := by
  unfold writeField
  rw [writeFieldConvert_append d b]
  rcases writeFieldConvert d "" n.xType with ⟨s, c⟩
  cases c <;> simp

/-- What `writeField` appends for array nodes around a primitive of the table. -/
theorem writeField_arrays (d : Deps) (b : String) (m : IDMap) (name : ID)
    (arrs : List TypeNode) (x : TypeNode) (T : String)
    (hOpen : d.IDOpenBracket ≠ 0)
    (harr : ∀ a ∈ arrs, a.packageOrDecorator = d.IDOpenBracket)
    (hx : x.packageOrDecorator = 0)
    (hT : (cTypeNames d)[d.key x.name]? = some T) (hne : T ≠ "") :
    writeField d b m { name := name, xType := arrs ++ [x] } =
      (b ++ T ++ " " ++ "f_" ++ m name ++
        String.join (arrs.map (fun a => "[" ++ toString a.arrayLength ++ "]")) ++ ";\n",
        none) := by
  have hD := getD_of_getElem? _ _ _ hT
  have hx2 : ¬ x.packageOrDecorator = d.IDOpenBracket := by
    rw [hx]
    exact fun h => hOpen h.symm
  unfold writeField
  simp only
  rw [writeFieldConvert_arrays d b arrs x harr, writeFieldConvert_single, hD]
  simp only [hx, ne_eq, not_true_eq_false, false_and, if_false, hne, not_false_eq_true,
    if_true]
  rw [writeFieldBrackets_arrays d _ arrs [x] harr]
  simp only [writeFieldBrackets, hx2, if_false, String.append_assoc]


/-! ## The passes of `Generate` -/

theorem mem_structsOf (files : List File) (n : Struct) :
    n ∈ structsOf files ↔ ∃ file ∈ files, Node.kStruct n ∈ file.topLevelDecls := by
  simp only [structsOf, List.mem_flatMap, List.mem_filterMap]
  constructor
  · rintro ⟨file, hfile, x, hx, hxn⟩
    cases x with
    | other => simp [Node.struct?] at hxn
    | kStruct k =>
      simp only [Node.struct?, Option.some.injEq] at hxn
      exact ⟨file, hfile, hxn ▸ hx⟩
  · rintro ⟨file, hfile, hn⟩
    exact ⟨file, hfile, Node.kStruct n, hn, rfl⟩

theorem mem_fieldsOf (files : List File) (f : Field) :
    f ∈ fieldsOf files ↔
      ∃ file ∈ files, ∃ n, Node.kStruct n ∈ file.topLevelDecls ∧ f ∈ n.fields := by
  simp only [fieldsOf, List.mem_flatMap, mem_structsOf]
  constructor
  · rintro ⟨n, ⟨file, hfile, hn⟩, hf⟩
    exact ⟨file, hfile, n, hn, hf⟩
  · rintro ⟨file, hfile, n, hn, hf⟩
    exact ⟨n, ⟨file, hfile, hn⟩, hf⟩

theorem writeStruct_none_of_fields (d : Deps) (pkgName : String) (m : IDMap)
    (files : List File) (h : ∀ f ∈ fieldsOf files, (writeField d "" m f).2 = none) :
    ∀ n ∈ structsOf files, (writeStruct d "" pkgName m n).2 = none := by
  intro n hn
  rw [writeStruct_err]
  apply findSome?_eq_none_of_forall
  intro f hf
  apply h
  simp only [fieldsOf, List.mem_flatMap]
  exact ⟨n, hn, hf⟩

/-- When the struct pass fails, `Generate` returns its error and nothing else. -/
theorem Generate_of_struct_error (d : Deps) (g : Generator) (pkgName : String) (m : IDMap)
    (files : List File) (e : Error)
    (h : (fieldsOf files).findSome? (fun f => (writeField d "" m f).2) = some e) :
    Generate d g pkgName m files = { bytes := none, err := some e, formatted := [] } := by
  unfold Generate
  simp only
  split
  · rename_i s err heq
    have hs := structPass_err d pkgName m _ files ▸ congrArg Prod.snd heq
    rw [h] at hs
    simp only [Option.some.injEq] at hs
    rw [hs]
  · rename_i s heq
    have hs := structPass_err d pkgName m _ files ▸ congrArg Prod.snd heq
    rw [h] at hs
    cases hs

/-- When every field is convertible, `Generate` runs `format` on the text of the sections. -/
theorem Generate_of_convertible (d : Deps) (g : Generator) (pkgName : String) (m : IDMap)
    (files : List File) (h : ∀ f ∈ fieldsOf files, (writeField d "" m f).2 = none) :
    Generate d g pkgName m files =
      format d
        ("// Code generated by puffs-gen-" ++ String.singleton g.Extension ++
            ". DO NOT EDIT.\n\n" ++
          d.preamble ++
          "\n#ifdef __cplusplus\nextern \"C\" \x7b\n#endif\n\n" ++
          ("// ---------------- Status Codes\n\n" ++
            "typedef enum \x7b\n" ++
            "puffs_" ++ pkgName ++ "_status_ok = 0,\n" ++
            "puffs_" ++ pkgName ++ "_status_short_dst = -1,\n" ++
            "puffs_" ++ pkgName ++ "_status_short_src = -2,\n" ++
            "\x7d puffs_" ++ pkgName ++ "_status;\n\n") ++
          ("// ---------------- Structs\n\n" ++
            String.join ((structsOf files).map
              (textOf (fun b n => writeStruct d b pkgName m n)))) ++
          ("// ---------------- Constructor and Destructor Prototypes\n\n" ++
            String.join ((structsOf files).map
              (textOf (fun b n => writeCtorPrototypes b pkgName m n)))) ++
          "\n#ifdef __cplusplus\n\x7d  // extern \"C\"\n#endif\n\n" ++
          (if g.Extension = 'h' then ""
           else "// ---------------- Constructor and Destructor Implementations\n\n" ++
            String.join ((structsOf files).map
              (textOf (fun b n => writeCtorImpls b pkgName m n))))) := by
  unfold Generate
  simp only
  rw [forEachFile_ok _ (writeStruct_appends d pkgName m) _ files
    (writeStruct_none_of_fields d pkgName m files h)]
  simp only
  rw [forEachFile_ok _ (writeCtorPrototypes_appends pkgName m) _ files
    (fun n _ => by rw [writeCtorPrototypes_eq])]
  simp only
  by_cases hx : g.Extension = 'h'
  · rw [if_pos hx, if_pos hx]
    simp only [String.append_assoc, String.append_empty, String.empty_append]
  · rw [if_neg hx, if_neg hx]
    rw [forEachFile_ok _ (writeCtorImpls_appends pkgName m) _ files
      (fun n _ => by rw [writeCtorImpls_eq])]
    simp only [String.append_assoc, String.append_empty, String.empty_append]

/-- The error `writeField` returns does not depend on the buffer: it is the error of the
type when the first loop leaves `convertible` false. -/
theorem writeField_err_of_fails (d : Deps) (m : IDMap) (f : Field) (h : fails d m f = true) :
    (writeField d "" m f).2 = some (unconvertible d m f) := by
  unfold fails at h
  rw [writeField_err] at h ⊢
  by_cases hc : (writeFieldConvert d "" f.xType).2 = true
  · rw [if_pos hc] at h
    cases h
  · rw [if_neg hc]

theorem fails_of_error (d : Deps) (m : IDMap) (f : Field) (b : String)
    (h : (writeField d b m f).2 ≠ none) : fails d m f = true := by
  unfold fails
  rw [writeField_err] at h ⊢
  by_cases hc : (writeFieldConvert d "" f.xType).2 = true
  · rw [if_pos hc] at h
    exact absurd rfl h
  · rw [if_neg hc]
    rfl

/-- The struct pass fails with the error of the first failing field. -/
theorem first_error (d : Deps) (m : IDMap) (l : List Field) (f : Field)
    (h : l.find? (fails d m) = some f) :
    l.findSome? (fun x => (writeField d "" m x).2) = some (unconvertible d m f) := by
  have h1 := findSome?_of_find? l (fun x => (writeField d "" m x).2) f h
  rw [h1.1]
  exact writeField_err_of_fails d m f (List.find?_some h)


/-! ## Primitive fields -/

theorem writeField_primitive (d : Deps) (b : String) (m : IDMap) (f : Field)
    (hOpen : d.IDOpenBracket ≠ 0) (hf : IsPrimitiveField d f) :
    writeField d b m f = (b ++ terminalCType d f ++ " f_" ++ m f.name ++ ";\n", none) := by
  obtain ⟨x, hx, hpod, hT⟩ := hf
  have hk : (cTypeNames d)[d.key x.name]? = some ((cTypeNames d).getD (d.key x.name) "") := by
    by_cases hlt : d.key x.name < (cTypeNames d).length
    · rw [List.getD_eq_getElem?_getD, List.getElem?_eq_getElem hlt]
      rfl
    · exfalso
      apply hT
      rw [List.getD_eq_getElem?_getD, List.getElem?_eq_none (Nat.le_of_not_lt hlt)]
      rfl
  have h := writeField_arrays d b m f.name [] x _ hOpen (by simp) hpod hk hT
  have hf2 : f = { name := f.name, xType := [] ++ [x] } := by
    cases f
    simp only [List.nil_append] at hx ⊢
    rw [hx]
  rw [hf2, h]
  simp only [terminalCType, List.nil_append, List.getLast?_singleton, List.map_nil, join_nil,
    String.append_assoc, String.empty_append]
  rfl

/-- Every element of `cTypeNames` is empty or one of the names of the literal. -/
theorem cTypeNames_getD_mem (d : Deps) (k : Key) :
    (cTypeNames d).getD k "" = "" ∨
      (cTypeNames d).getD k "" ∈
        ["int8_t", "int16_t", "int32_t", "int64_t", "uint8_t", "uint16_t", "uint32_t",
          "uint64_t", "size_t", "bool"] := by
  rw [List.getD_eq_getElem?_getD]
  unfold cTypeNames
  rw [List.getElem?_map]
  cases hr : (List.range ((cTypeKeys d).foldl max 0 + 1))[k]? with
  | none => exact Or.inl rfl
  | some i =>
    rw [Option.map_some']
    cases hfind : (cTypeNamesLiteral d).find? (fun e => e.1 == i) with
    | none => exact Or.inl rfl
    | some e =>
      right
      have hmem := List.mem_of_find?_eq_some hfind
      simp only [Option.map_some', Option.getD_some]
      simp only [cTypeNamesLiteral, List.mem_cons, List.mem_singleton, List.not_mem_nil,
        or_false] at hmem
      rcases hmem with h | h | h | h | h | h | h | h | h | h <;> rw [h] <;> simp

theorem ne_of_head_ne (s t u v : String) (c e : Char) (hs : s.data.head? = some c)
    (ht : t.data.head? = some e) (hce : c ≠ e) : s ++ u ≠ t ++ v := by
  intro h
  have h2 := congrArg (fun z => z.data.head?) h
  simp only [String.data_append] at h2
  rcases s with ⟨_ | ⟨a, l⟩⟩
  · simp at hs
  · rcases t with ⟨_ | ⟨a2, l2⟩⟩
    · simp at ht
    · simp only [List.head?_cons, Option.some.injEq] at hs ht
      simp only [List.cons_append, List.head?_cons, Option.some.injEq] at h2
      exact hce (hs ▸ ht ▸ h2)

/-- The line of a primitive field is never the status field line. -/
theorem primitive_line_ne_statusLine (d : Deps) (m : IDMap) (pkgName : String) (f : Field)
    (hf : IsPrimitiveField d f) :
    terminalCType d f ++ " f_" ++ m f.name ++ ";\n" ≠ statusLine pkgName := by
  obtain ⟨x, hx, _, hT⟩ := hf
  have ht : terminalCType d f = (cTypeNames d).getD (d.key x.name) "" := by
    simp [terminalCType, hx]
  rw [ht]
  unfold statusLine
  simp only [String.append_assoc]
  rcases cTypeNames_getD_mem d (d.key x.name) with h | h
  · exact absurd h hT
  · simp only [List.mem_cons, List.mem_singleton, List.not_mem_nil, or_false] at h
    rcases h with h | h | h | h | h | h | h | h | h | h <;> rw [h]
    · exact ne_of_head_ne _ _ _ _ 'i' 'p' rfl rfl (by decide)
    · exact ne_of_head_ne _ _ _ _ 'i' 'p' rfl rfl (by decide)
    · exact ne_of_head_ne _ _ _ _ 'i' 'p' rfl rfl (by decide)
    · exact ne_of_head_ne _ _ _ _ 'i' 'p' rfl rfl (by decide)
    · exact ne_of_head_ne _ _ _ _ 'u' 'p' rfl rfl (by decide)
    · exact ne_of_head_ne _ _ _ _ 'u' 'p' rfl rfl (by decide)
    · exact ne_of_head_ne _ _ _ _ 'u' 'p' rfl rfl (by decide)
    · exact ne_of_head_ne _ _ _ _ 'u' 'p' rfl rfl (by decide)
    · exact ne_of_head_ne _ _ _ _ 's' 'p' rfl rfl (by decide)
    · exact ne_of_head_ne _ _ _ _ 'b' 'p' rfl rfl (by decide)


/-! ## The claims -/

/-- C1: for a field whose type is `D ≥ 0` array nodes (lengths `L1 .. LD`, outermost first)
followed by a primitive whose key has the non-empty name `T` in `cTypeNames`, `writeField`
returns no error and appends exactly `T f_<name>[L1]...[LD];\n`; in particular a 4-element
array of `i8` named `name` gives `int8_t f_name[4];\n`. -/
theorem writeField_array_of_primitive (d : Deps) (b : String) (m : IDMap) (name : ID)
    (arrs : List TypeNode) (x : TypeNode) (T : String)
    (hOpen : d.IDOpenBracket ≠ 0)
    (harr : ∀ a ∈ arrs, a.packageOrDecorator = d.IDOpenBracket)
    (hx : x.packageOrDecorator = 0)
    (hT : (cTypeNames d)[d.key x.name]? = some T) (hne : T ≠ "") :
    writeField d b m { name := name, xType := arrs ++ [x] } =
        (b ++ T ++ " " ++ "f_" ++ m name ++
          String.join (arrs.map (fun a => "[" ++ toString a.arrayLength ++ "]")) ++ ";\n",
          none) ∧
      ∀ a i8 : TypeNode, (cTypeKeys d).Nodup → a.packageOrDecorator = d.IDOpenBracket →
        a.arrayLength = 4 → i8.packageOrDecorator = 0 → d.key i8.name = d.KeyI8 →
        m name = "name" →
        writeField d "" m { name := name, xType := [a, i8] } = ("int8_t f_name[4];\n", none) := by
  refine ⟨writeField_arrays d b m name arrs x T hOpen harr hx hT hne, ?_⟩
  intro a i8 hn ha h4 h8 hk hm
  have hget : (cTypeNames d)[d.key i8.name]? = some "int8_t" := by
    rw [hk]
    exact cTypeNames_get d hn _ _ (by simp [cTypeNamesLiteral])
  have h := writeField_arrays d "" m name [a] i8 "int8_t" hOpen (by simpa using ha) h8 hget
    (by decide)
  rw [List.singleton_append] at h
  rw [h, hm]
  simp only [List.map_cons, List.map_nil, h4]
  rfl

/-- C1, on sample values: a 4-by-2 array of `i8`. -/
theorem writeField_array_of_primitive_witness :
    (sampleDeps.IDOpenBracket ≠ 0 ∧
      (∀ a ∈ [(⟨7, 0, 4⟩ : TypeNode), ⟨7, 0, 2⟩],
        a.packageOrDecorator = sampleDeps.IDOpenBracket) ∧
      (⟨0, 1, 0⟩ : TypeNode).packageOrDecorator = 0 ∧
      (cTypeNames sampleDeps)[sampleDeps.key (⟨0, 1, 0⟩ : TypeNode).name]? = some "int8_t" ∧
      "int8_t" ≠ "") ∧
    writeField sampleDeps "" sampleNames
        { name := 100, xType := [⟨7, 0, 4⟩, ⟨7, 0, 2⟩, ⟨0, 1, 0⟩] } =
      ("int8_t f_name[4][2];\n", none) :=
  ⟨⟨by decide, by decide, rfl, by decide, by decide⟩,
    (writeField_array_of_primitive sampleDeps "" sampleNames 100
      [⟨7, 0, 4⟩, ⟨7, 0, 2⟩] ⟨0, 1, 0⟩ "int8_t"
      (by decide) (by decide) rfl (by decide) (by decide)).1⟩

/-- C2: for a field with a non-empty type chain, `writeField` returns an error if and only
if some node carries a package-or-decorator value other than 0 and the open bracket, or the
key of the last node is outside `cTypeNames` or holds the empty string there. -/
theorem writeField_error_iff (d : Deps) (b : String) (m : IDMap) (n : Field)
    (h : n.xType ≠ []) :
    (writeField d b m n).2 ≠ none ↔
      (∃ x ∈ n.xType, x.packageOrDecorator ≠ 0 ∧ x.packageOrDecorator ≠ d.IDOpenBracket) ∨
      ¬ d.key (n.xType.getLast h).name < (cTypeNames d).length ∨
      (cTypeNames d)[d.key (n.xType.getLast h).name]? = some "" := by
  have hlast : n.xType.getLast? = some (n.xType.getLast h) := List.getLast?_eq_getLast _ h
  have hkey : (cTypeNames d).getD (d.key (n.xType.getLast h).name) "" = "" ↔
      (¬ d.key (n.xType.getLast h).name < (cTypeNames d).length ∨
        (cTypeNames d)[d.key (n.xType.getLast h).name]? = some "") := by
    rw [List.getD_eq_getElem?_getD]
    by_cases hk : d.key (n.xType.getLast h).name < (cTypeNames d).length
    · rw [List.getElem?_eq_getElem hk]
      simp [hk]
    · rw [List.getElem?_eq_none (Nat.le_of_not_lt hk)]
      simp [hk]
  rw [writeField_err, ← hkey]
  by_cases hc : (writeFieldConvert d "" n.xType).2 = true
  · rw [if_pos hc]
    have hc2 := (writeFieldConvert_true_iff d "" n.xType).1 hc
    constructor
    · intro hf
      exact absurd rfl hf
    · rintro (⟨x, hx, hbad⟩ | hk)
      · exact absurd hbad (hc2.1 x hx)
      · exact absurd hk (hc2.2 _ hlast)
  · rw [if_neg hc]
    constructor
    · intro _
      by_contra hno
      apply hc
      rw [writeFieldConvert_true_iff]
      constructor
      · intro x hx hbad
        exact hno (Or.inl ⟨x, hx, hbad⟩)
      · intro x hx hk
        rw [hlast, Option.some.injEq] at hx
        rw [← hx] at hk
        exact hno (Or.inr hk)
    · intro _
      simp

/-- C2, on sample values: a package-qualified type is refused. -/
theorem writeField_error_iff_witness :
    ([⟨20, 1, 0⟩] : TypeExpr) ≠ [] ∧
      (writeField sampleDeps "" sampleNames { name := 100, xType := [⟨20, 1, 0⟩] }).2 ≠ none :=
  ⟨by decide,
    (writeField_error_iff sampleDeps "" sampleNames { name := 100, xType := [⟨20, 1, 0⟩] }
      (by decide)).2 (Or.inl ⟨⟨20, 1, 0⟩, by decide, by decide⟩)⟩


/-- C3: if some field of some struct declaration is unconvertible, `Generate` returns no
bytes and an error, the error being the one `writeField` makes for a field, and nothing is
handed to the formatter; the result carries no struct text. -/
theorem Generate_unconvertible (d : Deps) (g : Generator) (pkgName : String) (m : IDMap)
    (files : List File)
    (h : ∃ file ∈ files, ∃ n, Node.kStruct n ∈ file.topLevelDecls ∧
      ∃ f ∈ n.fields, ∃ b, (writeField d b m f).2 ≠ none) :
    ∃ f ∈ fieldsOf files,
      Generate d g pkgName m files =
        { bytes := none, err := some (unconvertible d m f), formatted := [] } := by
  obtain ⟨file, hfile, n, hn, f, hf, b, hb⟩ := h
  have hmem : f ∈ fieldsOf files := (mem_fieldsOf files f).2 ⟨file, hfile, n, hn, hf⟩
  have hfind : ((fieldsOf files).find? (fails d m)).isSome :=
    List.find?_isSome.2 ⟨f, hmem, fails_of_error d m f b hb⟩
  obtain ⟨f1, hf1⟩ := Option.isSome_iff_exists.1 hfind
  exact ⟨f1, List.mem_of_find?_eq_some hf1,
    Generate_of_struct_error d g pkgName m files _ (first_error d m _ f1 hf1)⟩

/-- C3, on sample values: the declarations of `sampleBadFiles` give an error and nothing else. -/
theorem Generate_unconvertible_witness :
    (∃ file ∈ sampleBadFiles, ∃ n, Node.kStruct n ∈ file.topLevelDecls ∧
      ∃ f ∈ n.fields, ∃ b, (writeField sampleDeps b sampleNames f).2 ≠ none) ∧
    ∃ f ∈ fieldsOf sampleBadFiles,
      Generate sampleDeps ⟨'h'⟩ "xyz" sampleNames sampleBadFiles =
        { bytes := none, err := some (unconvertible sampleDeps sampleNames f),
          formatted := [] } :=
  have h : ∃ file ∈ sampleBadFiles, ∃ n, Node.kStruct n ∈ file.topLevelDecls ∧
      ∃ f ∈ n.fields, ∃ b, (writeField sampleDeps b sampleNames f).2 ≠ none :=
    ⟨⟨[Node.other, Node.kStruct ⟨103, false, [⟨101, [⟨0, 8, 0⟩]⟩, ⟨102, [⟨20, 1, 0⟩]⟩]⟩]⟩,
      by decide, ⟨103, false, [⟨101, [⟨0, 8, 0⟩]⟩, ⟨102, [⟨20, 1, 0⟩]⟩]⟩, by decide,
      ⟨102, [⟨20, 1, 0⟩]⟩, by decide, "", by decide⟩
  ⟨h, Generate_unconvertible sampleDeps ⟨'h'⟩ "xyz" sampleNames sampleBadFiles h⟩

/-- C4: when fields are unconvertible, the error `Generate` returns is that of the first
unconvertible field in source order, and its message is `cannot convert Puffs type`, the
quoted text of the whole type of that field, ` to C`. -/
theorem Generate_first_error (d : Deps) (g : Generator) (pkgName : String) (m : IDMap)
    (files : List File) (f : Field)
    (h : (fieldsOf files).find? (fails d m) = some f) :
    (Generate d g pkgName m files).err =
      some ("cannot convert Puffs type " ++ d.quote (d.typeString f.xType m) ++ " to C") := by
  rw [Generate_of_struct_error d g pkgName m files (unconvertible d m f)
    (first_error d m _ f h)]
  rfl

/-- C4, on sample values: of the two unconvertible fields of `sampleBadFiles` the error
names the type of the first. -/
theorem Generate_first_error_witness :
    (fieldsOf sampleBadFiles).find? (fails sampleDeps sampleNames) =
        some ⟨102, [⟨20, 1, 0⟩]⟩ ∧
      (Generate sampleDeps ⟨'c'⟩ "xyz" sampleNames sampleBadFiles).err =
        some "cannot convert Puffs type \"other.i8\" to C" :=
  ⟨by decide,
    Generate_first_error sampleDeps ⟨'c'⟩ "xyz" sampleNames sampleBadFiles
      ⟨102, [⟨20, 1, 0⟩]⟩ (by decide)⟩


/-- C5: for a suspendible struct whose fields are all convertible, `writeStruct` appends
`typedef struct {`, the status field line as first field, the lines of the user fields in
declaration order, and the closing line with the layout name; without user fields the
status field is the only field. -/
theorem writeStruct_suspendible (d : Deps) (b pkgName : String) (m : IDMap) (n : Struct)
    (hs : n.suspendible = true)
    (hc : ∀ f ∈ n.fields, (writeField d "" m f).2 = none) :
    writeStruct d b pkgName m n =
        (b ++ "typedef struct \x7b\n" ++
          ("puffs_" ++ pkgName ++ "_status status;\n") ++
          String.join (n.fields.map (fun f => (writeField d "" m f).1)) ++
          ("\x7d puffs_" ++ pkgName ++ "_" ++ m n.name ++ ";\n\n"), none) ∧
      (n.fields = [] →
        writeStruct d b pkgName m n =
          (b ++ "typedef struct \x7b\n" ++
            ("puffs_" ++ pkgName ++ "_status status;\n") ++
            ("\x7d puffs_" ++ pkgName ++ "_" ++ m n.name ++ ";\n\n"), none)) := by
  have h := writeStruct_ok d b pkgName m n hc
  rw [hs] at h
  simp only [if_true] at h
  constructor
  · rw [h]
    simp only [String.append_assoc]
    rfl
  · intro h0
    rw [h, h0]
    simp only [List.map_nil, join_nil, String.append_assoc, String.empty_append]

/-- C5, on sample values: a suspendible struct with the field `x: u32`. -/
theorem writeStruct_suspendible_witness :
    ((⟨104, true, [⟨101, [⟨0, 8, 0⟩]⟩]⟩ : Struct).suspendible = true ∧
      ∀ f ∈ (⟨104, true, [⟨101, [⟨0, 8, 0⟩]⟩]⟩ : Struct).fields,
        (writeField sampleDeps "" sampleNames f).2 = none) ∧
    writeStruct sampleDeps "" "xyz" sampleNames ⟨104, true, [⟨101, [⟨0, 8, 0⟩]⟩]⟩ =
      ("typedef struct \x7b\npuffs_xyz_status status;\nuint32_t f_x;\n\x7d puffs_xyz_decoder;\n\n",
        none) :=
  ⟨⟨rfl, by decide⟩,
    (writeStruct_suspendible sampleDeps "" "xyz" sampleNames ⟨104, true, [⟨101, [⟨0, 8, 0⟩]⟩]⟩
      rfl (by decide)).1⟩

/-- C6: for a struct that is not suspendible and whose fields are all primitives of the
table, `writeStruct` appends one line `<ctype> f_<name>;` per field in declared order between
the opening and the closing line, none of them the status field line, and
`writeCtorPrototypes` and `writeCtorImpls` append nothing; for package `xyz` and struct
`point` with `x: u32`, `y: u32` the layout is the text of the example. -/
theorem writeStruct_plain (d : Deps) (b pkgName : String) (m : IDMap) (n : Struct)
    (hOpen : d.IDOpenBracket ≠ 0) (hs : n.suspendible = false)
    (hp : ∀ f ∈ n.fields, IsPrimitiveField d f) :
    writeStruct d b pkgName m n =
        (b ++ "typedef struct \x7b\n" ++
          String.join (n.fields.map
            (fun f => terminalCType d f ++ " f_" ++ m f.name ++ ";\n")) ++
          ("\x7d puffs_" ++ pkgName ++ "_" ++ m n.name ++ ";\n\n"), none) ∧
      (∀ f ∈ n.fields, terminalCType d f ++ " f_" ++ m f.name ++ ";\n" ≠ statusLine pkgName) ∧
      writeCtorPrototypes b pkgName m n = (b, none) ∧
      writeCtorImpls b pkgName m n = (b, none) ∧
      ∀ (fx fy : ID) (u v : TypeNode), (cTypeKeys d).Nodup →
        n.fields = [⟨fx, [u]⟩, ⟨fy, [v]⟩] → d.key u.name = d.KeyU32 → d.key v.name = d.KeyU32 →
        m fx = "x" → m fy = "y" → m n.name = "point" →
        writeStruct d "" "xyz" m n =
          ("typedef struct \x7b\nuint32_t f_x;\nuint32_t f_y;\n\x7d puffs_xyz_point;\n\n",
            none) := by
  have hline : ∀ f ∈ n.fields,
      fieldLine d m f = terminalCType d f ++ " f_" ++ m f.name ++ ";\n" := by
    intro f hf
    unfold fieldLine
    rw [writeField_primitive d "" m f hOpen (hp f hf)]
    simp only [String.empty_append]
  have hnone : ∀ f ∈ n.fields, (writeField d "" m f).2 = none := by
    intro f hf
    rw [writeField_primitive d "" m f hOpen (hp f hf)]
  have main : ∀ b pkgName : String, writeStruct d b pkgName m n =
      (b ++ "typedef struct \x7b\n" ++
        String.join (n.fields.map
          (fun f => terminalCType d f ++ " f_" ++ m f.name ++ ";\n")) ++
        ("\x7d puffs_" ++ pkgName ++ "_" ++ m n.name ++ ";\n\n"), none) := by
    intro b pkgName
    rw [writeStruct_ok d b pkgName m n hnone, hs, List.map_congr_left hline]
    simp only [Bool.false_eq_true, if_false, String.append_assoc, String.append_empty,
      String.empty_append]
  refine ⟨main b pkgName, ?_, ?_, ?_, ?_⟩
  · intro f hf
    exact primitive_line_ne_statusLine d m pkgName f (hp f hf)
  · rw [writeCtorPrototypes_eq, hs]
    simp
  · rw [writeCtorImpls_eq, hs]
    simp
  · intro fx fy u v hn hfields hu hv hx hy hname
    have h32 : (cTypeNames d).getD d.KeyU32 "" = "uint32_t" :=
      getD_of_getElem? _ _ _ (cTypeNames_get d hn _ _ (by simp [cTypeNamesLiteral]))
    rw [main "" "xyz", hfields, hname]
    simp only [List.map_cons, List.map_nil, terminalCType, List.getLast?_singleton, hu, hv,
      h32, hx, hy, join_cons, join_nil]
    rfl

/-- C6, on sample values: the struct `point` of the example. -/
theorem writeStruct_plain_witness :
    (sampleDeps.IDOpenBracket ≠ 0 ∧ samplePoint.suspendible = false ∧
      ∀ f ∈ samplePoint.fields, IsPrimitiveField sampleDeps f) ∧
    writeStruct sampleDeps "" "xyz" sampleNames samplePoint =
      ("typedef struct \x7b\nuint32_t f_x;\nuint32_t f_y;\n\x7d puffs_xyz_point;\n\n",
        none) :=
  have hp : ∀ f ∈ samplePoint.fields, IsPrimitiveField sampleDeps f := by
    intro f hf
    simp only [samplePoint, List.mem_cons, List.mem_singleton, List.not_mem_nil, or_false] at hf
    rcases hf with hf | hf <;> exact ⟨⟨0, 8, 0⟩, by rw [hf], rfl, by decide⟩
  ⟨⟨by decide, rfl, hp⟩,
    (writeStruct_plain sampleDeps "" "xyz" sampleNames samplePoint (by decide) rfl hp).1⟩

/-- C7: `writeCtorPrototypes` never fails; it appends nothing for a struct that is not
suspendible, and for a suspendible one exactly two signatures, the constructor then the
destructor, each `void puffs_<pkg>_<struct>_<op>(puffs_<pkg>_<struct> *self);` and a blank
line. -/
theorem writeCtorPrototypes_text (b pkgName : String) (m : IDMap) (n : Struct) :
    writeCtorPrototypes b pkgName m n =
      (b ++ (if n.suspendible = true then
          String.join (["constructor", "destructor"].map (fun op =>
            "void puffs_" ++ pkgName ++ "_" ++ m n.name ++ "_" ++ op ++
              "(puffs_" ++ pkgName ++ "_" ++ m n.name ++ " *self);\n\n"))
        else ""), none) := by
  rw [writeCtorPrototypes_eq]
  cases n.suspendible
  · simp only [Bool.false_eq_true, if_false]
  · simp only [if_true, List.map_cons, List.map_nil, join_cons, join_nil, String.append_assoc,
      String.append_empty]
    rfl

/-- C8: for a suspendible struct `writeCtorImpls` appends exactly two function definitions,
the constructor whose body is the single statement `memset(self, 0, sizeof(*self));` and
then the destructor whose body is empty; for another struct it appends nothing. -/
theorem writeCtorImpls_text (b pkgName : String) (m : IDMap) (n : Struct) :
    writeCtorImpls b pkgName m n =
      (b ++ (if n.suspendible = true then
          ("void puffs_" ++ pkgName ++ "_" ++ m n.name ++ "_constructor(puffs_" ++ pkgName ++
              "_" ++ m n.name ++ " *self) \x7b\n" ++
            "memset(self, 0, sizeof(*self));\n" ++
            "\x7d\n\n") ++
          ("void puffs_" ++ pkgName ++ "_" ++ m n.name ++ "_destructor(puffs_" ++ pkgName ++
              "_" ++ m n.name ++ " *self) \x7b\n" ++
            "\x7d\n\n")
        else ""), none) := by
  rw [writeCtorImpls_eq]
  cases n.suspendible
  · simp only [Bool.false_eq_true, if_false]
  · simp only [if_true, String.append_assoc]


theorem format_formatted (d : Deps) (raw : String) : (format d raw).formatted = [raw] := by
  unfold format
  cases d.clangFormat raw <;> rfl

/-- C9: when every struct field is convertible, the text `Generate` hands to the formatter
is the banner line, the preamble, the guard opening, the status enumeration, the struct
section with the text of `writeStruct` for every struct declaration in source order, the
prototype section with the text of `writeCtorPrototypes` for the same structs, the guard
close, and then nothing for the extension `h` and else the implementation section with
the text of `writeCtorImpls` for the same structs. -/
theorem Generate_raw_text (d : Deps) (g : Generator) (pkgName : String) (m : IDMap)
    (files : List File) (h : ∀ f ∈ fieldsOf files, (writeField d "" m f).2 = none) :
    (Generate d g pkgName m files).formatted =
      [ "// Code generated by puffs-gen-" ++ String.singleton g.Extension ++
            ". DO NOT EDIT.\n\n" ++
          d.preamble ++
          "\n#ifdef __cplusplus\nextern \"C\" \x7b\n#endif\n\n" ++
          ("// ---------------- Status Codes\n\n" ++
            "typedef enum \x7b\n" ++
            "puffs_" ++ pkgName ++ "_status_ok = 0,\n" ++
            "puffs_" ++ pkgName ++ "_status_short_dst = -1,\n" ++
            "puffs_" ++ pkgName ++ "_status_short_src = -2,\n" ++
            "\x7d puffs_" ++ pkgName ++ "_status;\n\n") ++
          ("// ---------------- Structs\n\n" ++
            String.join ((structsOf files).map (fun n => (writeStruct d "" pkgName m n).1))) ++
          ("// ---------------- Constructor and Destructor Prototypes\n\n" ++
            String.join ((structsOf files).map
              (fun n => (writeCtorPrototypes "" pkgName m n).1))) ++
          "\n#ifdef __cplusplus\n\x7d  // extern \"C\"\n#endif\n\n" ++
          (if g.Extension = 'h' then ""
           else "// ---------------- Constructor and Destructor Implementations\n\n" ++
            String.join ((structsOf files).map
              (fun n => (writeCtorImpls "" pkgName m n).1))) ] := by
  rw [Generate_of_convertible d g pkgName m files h, format_formatted]
  rfl

set_option maxRecDepth 1000000

/-- C9, on sample values: the raw text of the `.c` file for `sampleFiles`. -/
theorem Generate_raw_text_witness :
    (∀ f ∈ fieldsOf sampleFiles, (writeField sampleDeps "" sampleNames f).2 = none) ∧
    (Generate sampleDeps ⟨'c'⟩ "xyz" sampleNames sampleFiles).formatted =
      [ "// Code generated by puffs-gen-c. DO NOT EDIT.\n\n" ++
        "\n#ifdef __cplusplus\nextern \"C\" \x7b\n#endif\n\n" ++
        "// ---------------- Status Codes\n\n" ++
        "typedef enum \x7b\n" ++
        "puffs_xyz_status_ok = 0,\n" ++
        "puffs_xyz_status_short_dst = -1,\n" ++
        "puffs_xyz_status_short_src = -2,\n" ++
        "\x7d puffs_xyz_status;\n\n" ++
        "// ---------------- Structs\n\n" ++
        "typedef struct \x7b\nuint32_t f_x;\nuint32_t f_y;\n\x7d puffs_xyz_point;\n\n" ++
        "typedef struct \x7b\npuffs_xyz_status status;\n\x7d puffs_xyz_decoder;\n\n" ++
        "// ---------------- Constructor and Destructor Prototypes\n\n" ++
        "void puffs_xyz_decoder_constructor(puffs_xyz_decoder *self);\n\n" ++
        "void puffs_xyz_decoder_destructor(puffs_xyz_decoder *self);\n\n" ++
        "\n#ifdef __cplusplus\n\x7d  // extern \"C\"\n#endif\n\n" ++
        "// ---------------- Constructor and Destructor Implementations\n\n" ++
        "void puffs_xyz_decoder_constructor(puffs_xyz_decoder *self) \x7b\n" ++
        "memset(self, 0, sizeof(*self));\n" ++
        "\x7d\n\n" ++
        "void puffs_xyz_decoder_destructor(puffs_xyz_decoder *self) \x7b\n" ++
        "\x7d\n\n" ] :=
  ⟨by decide,
    (Generate_raw_text sampleDeps ⟨'c'⟩ "xyz" sampleNames sampleFiles (by decide)).trans rfl⟩


/-- C10, as stated, fails: for the package `xyz` and no declaration a text is handed to the
formatter and neither `short_output = -1` nor `short_input = -2` occurs in it. -/
theorem Generate_status_enum_counterexample :
    (Generate sampleDeps ⟨'h'⟩ "xyz" sampleNames []).formatted ≠ [] ∧
      ∀ raw ∈ (Generate sampleDeps ⟨'h'⟩ "xyz" sampleNames []).formatted,
        ¬ occursIn "short_output = -1" raw ∧ ¬ occursIn "short_input = -2" raw := by
  decide

set_option maxRecDepth 512

/-- C10, amended: for every package name `p` and every declaration list, the text handed to
the formatter (there is one unless a field is unconvertible) holds the status enumeration
once, after the guard opening and before the struct section, with the three values
`puffs_<p>_status_ok = 0`, `puffs_<p>_status_short_dst = -1`,
`puffs_<p>_status_short_src = -2` and the type name `puffs_<p>_status`; so it is for the
empty declaration list. -/
theorem Generate_status_enum (d : Deps) (g : Generator) (p : String) (m : IDMap)
    (files : List File) :
    (Generate d g p m files).formatted =
        (if (fieldsOf files).all (fun f => !fails d m f) = true then
          [ "// Code generated by puffs-gen-" ++ String.singleton g.Extension ++
                ". DO NOT EDIT.\n\n" ++
              d.preamble ++
              "\n#ifdef __cplusplus\nextern \"C\" \x7b\n#endif\n\n" ++
              ("// ---------------- Status Codes\n\n" ++
                "typedef enum \x7b\n" ++
                "puffs_" ++ p ++ "_status_ok = 0,\n" ++
                "puffs_" ++ p ++ "_status_short_dst = -1,\n" ++
                "puffs_" ++ p ++ "_status_short_src = -2,\n" ++
                "\x7d puffs_" ++ p ++ "_status;\n\n") ++
              ("// ---------------- Structs\n\n" ++
                String.join ((structsOf files).map (fun n => (writeStruct d "" p m n).1))) ++
              ("// ---------------- Constructor and Destructor Prototypes\n\n" ++
                String.join ((structsOf files).map
                  (fun n => (writeCtorPrototypes "" p m n).1))) ++
              "\n#ifdef __cplusplus\n\x7d  // extern \"C\"\n#endif\n\n" ++
              (if g.Extension = 'h' then ""
               else "// ---------------- Constructor and Destructor Implementations\n\n" ++
                String.join ((structsOf files).map
                  (fun n => (writeCtorImpls "" p m n).1))) ]
        else []) ∧
      (Generate d g p m []).formatted =
        [ "// Code generated by puffs-gen-" ++ String.singleton g.Extension ++
              ". DO NOT EDIT.\n\n" ++
            d.preamble ++
            "\n#ifdef __cplusplus\nextern \"C\" \x7b\n#endif\n\n" ++
            ("// ---------------- Status Codes\n\n" ++
              "typedef enum \x7b\n" ++
              "puffs_" ++ p ++ "_status_ok = 0,\n" ++
              "puffs_" ++ p ++ "_status_short_dst = -1,\n" ++
              "puffs_" ++ p ++ "_status_short_src = -2,\n" ++
              "\x7d puffs_" ++ p ++ "_status;\n\n") ++
            "// ---------------- Structs\n\n" ++
            "// ---------------- Constructor and Destructor Prototypes\n\n" ++
            "\n#ifdef __cplusplus\n\x7d  // extern \"C\"\n#endif\n\n" ++
            (if g.Extension = 'h' then ""
             else "// ---------------- Constructor and Destructor Implementations\n\n") ] := by
  constructor
  · by_cases hall : (fieldsOf files).all (fun f => !fails d m f) = true
    · rw [if_pos hall]
      have h : ∀ f ∈ fieldsOf files, (writeField d "" m f).2 = none := by
        intro f hf
        have hf2 := List.all_eq_true.1 hall f hf
        simp only [fails, Bool.not_eq_true'] at hf2
        cases hw : (writeField d "" m f).2 with
        | none => rfl
        | some e =>
          rw [hw] at hf2
          cases hf2
      rw [Generate_of_convertible d g p m files h, format_formatted]
      rfl
    · rw [if_neg hall]
      have hfind : ((fieldsOf files).find? (fails d m)).isSome := by
        rw [List.find?_isSome]
        by_contra hno
        apply hall
        rw [List.all_eq_true]
        intro f hf
        cases hfl : fails d m f with
        | false => rfl
        | true => exact absurd ⟨f, hf, hfl⟩ hno
      obtain ⟨f1, hf1⟩ := Option.isSome_iff_exists.1 hfind
      rw [Generate_of_struct_error d g p m files _ (first_error d m _ f1 hf1)]
  · rw [Generate_of_convertible d g p m [] (by intro f hf; cases hf), format_formatted]
    by_cases hx : g.Extension = 'h'
    · simp only [hx, if_true, structsOf, List.flatMap_nil, List.map_nil, join_nil,
        String.append_empty, String.append_assoc]
    · simp only [hx, if_false, structsOf, List.flatMap_nil, List.map_nil, join_nil,
        String.append_empty, String.append_assoc]


/-! ## The buffer after an error -/

theorem writeFieldConvert_fst_of_false (d : Deps) (b : String) (t : TypeExpr)
    (h : (writeFieldConvert d b t).2 = false) : (writeFieldConvert d b t).1 = b := by
  induction t with
  | nil => simp [writeFieldConvert] at h
  | cons x inner ih =>
    cases inner with
    | nil =>
      rw [writeFieldConvert_single] at h ⊢
      by_cases h1 : x.packageOrDecorator ≠ 0 ∧ x.packageOrDecorator ≠ d.IDOpenBracket
      · rw [if_pos h1]
      · rw [if_neg h1] at h ⊢
        by_cases h2 : (cTypeNames d).getD (d.key x.name) "" ≠ ""
        · rw [if_pos h2] at h
          cases h
        · rw [if_neg h2]
    | cons y t =>
      rw [writeFieldConvert_cons_cons] at h ⊢
      by_cases h1 : x.packageOrDecorator ≠ 0 ∧ x.packageOrDecorator ≠ d.IDOpenBracket
      · rw [if_pos h1]
      · rw [if_neg h1] at h ⊢
        exact ih h

theorem writeField_of_fails (d : Deps) (b : String) (m : IDMap) (f : Field)
    (h : fails d m f = true) : writeField d b m f = (b, some (unconvertible d m f)) := by
  have herr := writeField_err_of_fails d m f h
  rw [writeField_err] at herr
  have hc : (writeFieldConvert d b f.xType).2 = false := by
    rw [writeFieldConvert_append]
    by_cases hc : (writeFieldConvert d "" f.xType).2 = true
    · rw [if_pos hc] at herr
      cases herr
    · simpa using hc
  have hb := writeFieldConvert_fst_of_false d b f.xType hc
  unfold writeField
  rcases hw : writeFieldConvert d b f.xType with ⟨s, c⟩
  rw [hw] at hc hb
  simp only at hc hb
  rw [hc, hb]

theorem writeStructFields_split (d : Deps) (m : IDMap) (b : String) (pre post : List Field)
    (f : Field) (hpre : ∀ g ∈ pre, (writeField d "" m g).2 = none)
    (hf : fails d m f = true) :
    writeStructFields d m b (pre ++ f :: post) =
      (b ++ String.join (pre.map (fieldLine d m)), some (unconvertible d m f)) := by
  induction pre generalizing b with
  | nil =>
    simp only [List.nil_append, writeStructFields, writeField_of_fails d b m f hf, List.map_nil,
      join_nil, String.append_empty]
  | cons g pre ih =>
    have hg := hpre g (List.mem_cons_self _ _)
    rw [List.cons_append, writeStructFields, writeField_append d b, hg]
    simp only [List.map_cons, join_cons]
    rw [ih _ (fun x hx => hpre x (List.mem_cons_of_mem _ hx))]
    simp only [fieldLine, String.append_assoc]

theorem fails_eq_false_iff (d : Deps) (m : IDMap) (f : Field) :
    fails d m f = false ↔ (writeField d "" m f).2 = none := by
  unfold fails
  cases (writeField d "" m f).2 <;> simp

theorem format_bytes_err (d : Deps) (raw : String) :
    (∀ out, d.clangFormat raw = Except.ok out →
        (format d raw).bytes = some out ∧ (format d raw).err = none) ∧
      (∀ e, d.clangFormat raw = Except.error e →
        (format d raw).bytes = none ∧ (format d raw).err = some e) := by
  unfold format
  constructor
  · intro out h
    rw [h]
    exact ⟨rfl, rfl⟩
  · intro e h
    rw [h]
    exact ⟨rfl, rfl⟩


/-! ## The claims on the formatter, the header and the buffer after an error -/

/-- C11: when every struct field is convertible, what `Generate` returns is what the
formatter gives for the raw text handed to it: its output as the bytes and no error when
it succeeds, and no bytes and its error when it fails. -/
theorem Generate_returns_formatter (d : Deps) (g : Generator) (pkgName : String) (m : IDMap)
    (files : List File) (h : ∀ f ∈ fieldsOf files, (writeField d "" m f).2 = none) :
    ∃ raw, (Generate d g pkgName m files).formatted = [raw] ∧
      (∀ out, d.clangFormat raw = Except.ok out →
        (Generate d g pkgName m files).bytes = some out ∧
          (Generate d g pkgName m files).err = none) ∧
      (∀ e, d.clangFormat raw = Except.error e →
        (Generate d g pkgName m files).bytes = none ∧
          (Generate d g pkgName m files).err = some e) := by
  rw [Generate_of_convertible d g pkgName m files h]
  exact ⟨_, format_formatted d _, format_bytes_err d _⟩

/-- C11, on sample values: with a formatter that fails, `Generate` returns its error. -/
theorem Generate_returns_formatter_witness :
    (∀ f ∈ fieldsOf sampleFiles, (writeField sampleFailingDeps "" sampleNames f).2 = none) ∧
      (Generate sampleFailingDeps ⟨'c'⟩ "xyz" sampleNames sampleFiles).bytes = none ∧
      (Generate sampleFailingDeps ⟨'c'⟩ "xyz" sampleNames sampleFiles).err =
        some "exit status 1" :=
  ⟨by decide,
    match Generate_returns_formatter sampleFailingDeps ⟨'c'⟩ "xyz" sampleNames sampleFiles
      (by decide) with
    | ⟨_, _, _, herr⟩ => herr "exit status 1" rfl⟩


set_option maxRecDepth 1000000

/-- C12, as stated, fails: for the sample declarations both raw texts exist and the one
for the extension `h` is not a prefix of the one for the extension `c`. -/
theorem Generate_header_first_part_counterexample :
    (Generate sampleDeps ⟨'h'⟩ "xyz" sampleNames sampleFiles).err = none ∧
      (Generate sampleDeps ⟨'c'⟩ "xyz" sampleNames sampleFiles).err = none ∧
      (Generate sampleDeps ⟨'h'⟩ "xyz" sampleNames sampleFiles).formatted ≠ [] ∧
      (Generate sampleDeps ⟨'c'⟩ "xyz" sampleNames sampleFiles).formatted ≠ [] ∧
      ∀ rh ∈ (Generate sampleDeps ⟨'h'⟩ "xyz" sampleNames sampleFiles).formatted,
        ∀ rc ∈ (Generate sampleDeps ⟨'c'⟩ "xyz" sampleNames sampleFiles).formatted,
          ¬ rh.data <+: rc.data := by
  decide

set_option maxRecDepth 512

/-- C12, amended: when every struct field is convertible, the raw text for the extension
`h` and the raw text for the extension `c` are the banner line, which names the extension,
followed by the same text, and the text for `c` goes on with the implementation section:
after the banner line the header is the first part of the `.c` file. -/
theorem Generate_header_first_part (d : Deps) (pkgName : String) (m : IDMap) (files : List File)
    (h : ∀ f ∈ fieldsOf files, (writeField d "" m f).2 = none) :
    ∃ common impls,
      (Generate d ⟨'h'⟩ pkgName m files).formatted =
          ["// Code generated by puffs-gen-h. DO NOT EDIT.\n\n" ++ common] ∧
        (Generate d ⟨'c'⟩ pkgName m files).formatted =
          ["// Code generated by puffs-gen-c. DO NOT EDIT.\n\n" ++ common ++ impls] ∧
        impls = "// ---------------- Constructor and Destructor Implementations\n\n" ++
          String.join ((structsOf files).map (fun n => (writeCtorImpls "" pkgName m n).1)) := by
  refine ⟨d.preamble ++
      "\n#ifdef __cplusplus\nextern \"C\" \x7b\n#endif\n\n" ++
      ("// ---------------- Status Codes\n\n" ++
        "typedef enum \x7b\n" ++
        "puffs_" ++ pkgName ++ "_status_ok = 0,\n" ++
        "puffs_" ++ pkgName ++ "_status_short_dst = -1,\n" ++
        "puffs_" ++ pkgName ++ "_status_short_src = -2,\n" ++
        "\x7d puffs_" ++ pkgName ++ "_status;\n\n") ++
      ("// ---------------- Structs\n\n" ++
        String.join ((structsOf files).map
          (textOf (fun b n => writeStruct d b pkgName m n)))) ++
      ("// ---------------- Constructor and Destructor Prototypes\n\n" ++
        String.join ((structsOf files).map
          (textOf (fun b n => writeCtorPrototypes b pkgName m n)))) ++
      "\n#ifdef __cplusplus\n\x7d  // extern \"C\"\n#endif\n\n", _, ?_, ?_, rfl⟩
  · rw [Generate_of_convertible d ⟨'h'⟩ pkgName m files h, format_formatted]
    simp only [if_true, String.append_assoc, String.append_empty]
    rfl
  · rw [Generate_of_convertible d ⟨'c'⟩ pkgName m files h, format_formatted]
    rw [if_neg (by decide)]
    simp only [String.append_assoc]
    rfl

/-- C12 amended, on sample values. -/
theorem Generate_header_first_part_witness :
    (∀ f ∈ fieldsOf sampleFiles, (writeField sampleDeps "" sampleNames f).2 = none) ∧
    ∃ common impls,
      (Generate sampleDeps ⟨'h'⟩ "xyz" sampleNames sampleFiles).formatted =
          ["// Code generated by puffs-gen-h. DO NOT EDIT.\n\n" ++ common] ∧
        (Generate sampleDeps ⟨'c'⟩ "xyz" sampleNames sampleFiles).formatted =
          ["// Code generated by puffs-gen-c. DO NOT EDIT.\n\n" ++ common ++ impls] ∧
        impls = "// ---------------- Constructor and Destructor Implementations\n\n" ++
          String.join ((structsOf sampleFiles).map
            (fun n => (writeCtorImpls "" "xyz" sampleNames n).1)) :=
  ⟨by decide, Generate_header_first_part sampleDeps "xyz" sampleNames sampleFiles (by decide)⟩

/-- C13, as stated, fails: on the empty buffer `writeStruct` returns an error for a struct
whose only field has a package-qualified type, and the buffer holds the opening line. -/
theorem writeStruct_error_buffer_counterexample :
    (writeStruct sampleDeps "" "xyz" sampleNames ⟨103, false, [⟨102, [⟨20, 1, 0⟩]⟩]⟩).2 ≠ none ∧
      (writeStruct sampleDeps "" "xyz" sampleNames ⟨103, false, [⟨102, [⟨20, 1, 0⟩]⟩]⟩).1 =
        "typedef struct \x7b\n" ∧
      (writeStruct sampleDeps "" "xyz" sampleNames ⟨103, false, [⟨102, [⟨20, 1, 0⟩]⟩]⟩).1 ≠ "" := by
  decide

/-- C13, amended: if `writeStruct` returns an error, the error is that of the first
unconvertible field and the buffer holds what it held before the call followed by the
opening line, the status field line when the struct is suspendible, and the lines of the
fields that precede the failing one. -/
theorem writeStruct_error_buffer (d : Deps) (b pkgName : String) (m : IDMap) (n : Struct)
    (h : (writeStruct d b pkgName m n).2 ≠ none) :
    ∃ pre f post, n.fields = pre ++ f :: post ∧
      (∀ g ∈ pre, (writeField d "" m g).2 = none) ∧
      (writeField d "" m f).2 ≠ none ∧
      writeStruct d b pkgName m n =
        (b ++ "typedef struct \x7b\n" ++
          (if n.suspendible = true then "puffs_" ++ pkgName ++ "_status status;\n" else "") ++
          String.join (pre.map (fun g => (writeField d "" m g).1)),
          some (unconvertible d m f)) := by
  have hfind : (n.fields.find? (fails d m)).isSome = true := by
    cases hf : n.fields.find? (fails d m) with
    | some f => rfl
    | none =>
      exfalso
      apply h
      rw [writeStruct_err]
      apply findSome?_eq_none_of_forall
      intro f hmem
      have := List.find?_eq_none.1 hf f hmem
      rw [← fails_eq_false_iff]
      simpa using this
  obtain ⟨f, hf⟩ := Option.isSome_iff_exists.1 hfind
  obtain ⟨hpf, pre, post, hsplit, hpre⟩ := List.find?_eq_some.1 hf
  have hpre2 : ∀ g ∈ pre, (writeField d "" m g).2 = none := by
    intro g hg
    rw [← fails_eq_false_iff]
    simpa using hpre g hg
  refine ⟨pre, f, post, hsplit, hpre2, ?_, ?_⟩
  · rw [writeField_err_of_fails d m f hpf]
    exact Option.some_ne_none _
  · unfold writeStruct
    simp only
    rw [hsplit, writeStructFields_split d m _ pre post f hpre2 hpf]
    cases n.suspendible <;>
      simp only [Bool.false_eq_true, if_false, if_true, String.append_assoc,
        String.append_empty, String.empty_append] <;> rfl

/-- C13 amended, on sample values: the status line and the line of `x` stay in the buffer. -/
theorem writeStruct_error_buffer_witness :
    (writeStruct sampleDeps "b" "xyz" sampleNames
        ⟨104, true, [⟨101, [⟨0, 8, 0⟩]⟩, ⟨102, [⟨20, 1, 0⟩]⟩]⟩).2 ≠ none ∧
      ∃ pre f post,
        (⟨104, true, [⟨101, [⟨0, 8, 0⟩]⟩, ⟨102, [⟨20, 1, 0⟩]⟩]⟩ : Struct).fields =
          pre ++ f :: post ∧
        (∀ g ∈ pre, (writeField sampleDeps "" sampleNames g).2 = none) ∧
        (writeField sampleDeps "" sampleNames f).2 ≠ none ∧
        writeStruct sampleDeps "b" "xyz" sampleNames
            ⟨104, true, [⟨101, [⟨0, 8, 0⟩]⟩, ⟨102, [⟨20, 1, 0⟩]⟩]⟩ =
          ("b" ++ "typedef struct \x7b\n" ++
            (if (⟨104, true, [⟨101, [⟨0, 8, 0⟩]⟩, ⟨102, [⟨20, 1, 0⟩]⟩]⟩ : Struct).suspendible = true
              then "puffs_" ++ "xyz" ++ "_status status;\n" else "") ++
            String.join (pre.map (fun g => (writeField sampleDeps "" sampleNames g).1)),
            some (unconvertible sampleDeps sampleNames f)) :=
  ⟨by decide,
    writeStruct_error_buffer sampleDeps "b" "xyz" sampleNames
      ⟨104, true, [⟨101, [⟨0, 8, 0⟩]⟩, ⟨102, [⟨20, 1, 0⟩]⟩]⟩ (by decide)⟩

/-- C14: if `writeField` returns an error the buffer is unchanged by the call, for every
field and every buffer. -/
theorem writeField_error_buffer (d : Deps) (b : String) (m : IDMap) (n : Field)
    (h : (writeField d b m n).2 ≠ none) : (writeField d b m n).1 = b := by
  rw [writeField_of_fails d b m n (fails_of_error d m n b h)]

/-- C14, on sample values: an array of an unknown key leaves the buffer as it was. -/
theorem writeField_error_buffer_witness :
    (writeField sampleDeps "typedef struct \x7b\n" sampleNames
        ⟨100, [⟨7, 0, 4⟩, ⟨0, 11, 0⟩]⟩).2 ≠ none ∧
      (writeField sampleDeps "typedef struct \x7b\n" sampleNames
        ⟨100, [⟨7, 0, 4⟩, ⟨0, 11, 0⟩]⟩).1 = "typedef struct \x7b\n" :=
  ⟨by decide,
    writeField_error_buffer sampleDeps "typedef struct \x7b\n" sampleNames
      ⟨100, [⟨7, 0, 4⟩, ⟨0, 11, 0⟩]⟩ (by decide)⟩

/-- C15: for a suspendible struct the prototypes are the heads of the two lifecycle
functions, constructor then destructor, each followed by `;`, the definitions are the same
two heads in the same order, each followed by ` {` and the body, the parameter type in the
head is the layout name, and the layout name is the one `writeStruct` gives the typedef. -/
theorem lifecycle_consistent (d : Deps) (pkgName : String) (m : IDMap) (n : Struct)
    (hs : n.suspendible = true) :
    (writeCtorPrototypes "" pkgName m n).1 =
        (ctorHead pkgName m n "constructor" ++ ";" ++ "\n\n") ++
        (ctorHead pkgName m n "destructor" ++ ";" ++ "\n\n") ∧
      (writeCtorImpls "" pkgName m n).1 =
        (ctorHead pkgName m n "constructor" ++ " \x7b" ++ "\n" ++
          "memset(self, 0, sizeof(*self));\n" ++ "\x7d\n\n") ++
        (ctorHead pkgName m n "destructor" ++ " \x7b" ++ "\n" ++ "\x7d\n\n") ∧
      (∀ op, ctorHead pkgName m n op =
        "void puffs_" ++ pkgName ++ "_" ++ m n.name ++ "_" ++ op ++
          "(" ++ layoutName pkgName m n ++ " *self)") ∧
      ((writeStruct d "" pkgName m n).2 = none →
        (writeStruct d "" pkgName m n).1 =
          "typedef struct \x7b\n" ++ "puffs_" ++ pkgName ++ "_status status;\n" ++
            String.join (n.fields.map (fun f => (writeField d "" m f).1)) ++
            "\x7d " ++ layoutName pkgName m n ++ ";\n\n") := by
  refine ⟨?_, ?_, ?_, ?_⟩
  · rw [writeCtorPrototypes_eq, hs]
    simp only [if_true, ctorHead, layoutName, String.append_assoc, String.empty_append]
    rfl
  · rw [writeCtorImpls_eq, hs]
    simp only [if_true, ctorHead, layoutName, String.append_assoc, String.empty_append]
    rfl
  · intro op
    simp only [ctorHead, layoutName, String.append_assoc]
    rfl
  · intro hnone
    rw [writeStruct_err, List.findSome?_eq_none_iff] at hnone
    rw [writeStruct_ok d "" pkgName m n hnone, hs]
    simp only [if_true, layoutName, String.append_assoc, String.empty_append]
    rfl

/-- C15, on sample values: the lifecycle text of the struct `decoder`. -/
theorem lifecycle_consistent_witness :
    sampleDecoder.suspendible = true ∧
      (writeCtorPrototypes "" "xyz" sampleNames sampleDecoder).1 =
        (ctorHead "xyz" sampleNames sampleDecoder "constructor" ++ ";" ++ "\n\n") ++
        (ctorHead "xyz" sampleNames sampleDecoder "destructor" ++ ";" ++ "\n\n") :=
  ⟨rfl, (lifecycle_consistent sampleDeps "xyz" sampleNames sampleDecoder rfl).1⟩


/-! ## The template embedder: `bytes.Index` and the wrapping loop -/

theorem bytesIndex_occurs (sep : List Byte) (s : List Byte) (i : Nat)
    (h : bytesIndex s sep = some i) : sep <+: s.drop i := by
  induction s generalizing i with
  | nil =>
    simp only [bytesIndex] at h
    by_cases hp : sep.isPrefixOf [] = true
    · rw [if_pos hp] at h
      cases h
      exact List.isPrefixOf_iff_prefix.1 hp
    · rw [if_neg hp] at h
      cases h
  | cons b s ih =>
    simp only [bytesIndex] at h
    by_cases hp : sep.isPrefixOf (b :: s) = true
    · rw [if_pos hp] at h
      cases h
      exact List.isPrefixOf_iff_prefix.1 hp
    · rw [if_neg hp] at h
      cases hj : bytesIndex s sep with
      | none =>
        rw [hj] at h
        cases h
      | some j =>
        rw [hj] at h
        simp only [Option.map_some', Option.some.injEq] at h
        rw [← h]
        exact ih j hj

theorem bytesIndex_split (sep : List Byte) (s : List Byte) (i : Nat)
    (h : bytesIndex s sep = some i) : s = s.take i ++ sep ++ s.drop (i + sep.length) := by
  have hp := List.prefix_iff_eq_append.1 (bytesIndex_occurs sep s i h)
  rw [List.drop_drop] at hp
  rw [List.append_assoc, hp, List.take_append_drop]

theorem wrap_out (fuel : Nat) (out : List Piece) (s : List Byte) :
    writeStringConstWrap fuel out s =
      (writeStringConstWrap fuel [] s).map (fun ps => out ++ ps) := by
  induction fuel generalizing out s with
  | zero =>
    by_cases hs : s.length > 0
    · simp only [writeStringConstWrap, if_pos hs]
      rfl
    · simp only [writeStringConstWrap, if_neg hs]
      simp
  | succ fuel ih =>
    by_cases hs : s.length > 0
    · simp only [writeStringConstWrap, if_pos hs, List.nil_append]
      generalize (if s.length > columns then List.take columns s else s) = t
      rw [ih (out ++ [Piece.quoted t]), ih [Piece.quoted t]]
      cases writeStringConstWrap fuel [] (s.drop t.length) <;> simp
    · simp only [writeStringConstWrap, if_neg hs]
      simp

/-- What the wrapping loop gives for the bytes `s`: literals that hold `s` in order, each
of 1 to `columns` bytes and each but the last of `columns` bytes. -/
theorem wrap_spec (fuel : Nat) (s : List Byte) (h : s.length ≤ fuel) :
    ∃ ps, writeStringConstWrap fuel [] s = some ps ∧
      ps.flatMap Piece.content = s ∧
      (∀ p ∈ ps, ∃ t, p = Piece.quoted t ∧ 0 < t.length ∧ t.length ≤ columns) ∧
      List.Chain' FullBefore ps ∧
      (s = [] → ps = []) := by
  induction fuel generalizing s with
  | zero =>
    have hs : s = [] := List.length_eq_zero.1 (Nat.le_zero.1 h)
    subst hs
    exact ⟨[], by simp [writeStringConstWrap], rfl, by simp, List.chain'_nil, fun _ => rfl⟩
  | succ fuel ih =>
    by_cases hs : s.length > 0
    · have hlen : ((if s.length > columns then s.take columns else s)).length ≤ columns ∧
          0 < (if s.length > columns then s.take columns else s).length ∧
          (if s.length > columns then s.take columns else s) =
            s.take (if s.length > columns then s.take columns else s).length := by
        by_cases hc : s.length > columns
        · rw [if_pos hc]
          have : (s.take columns).length = columns := by
            rw [List.length_take]
            exact Nat.min_eq_left (Nat.le_of_lt hc)
          rw [this]
          exact ⟨Nat.le_refl _, by decide, rfl⟩
        · rw [if_neg hc]
          exact ⟨Nat.le_of_not_lt hc, hs, (List.take_length s).symm⟩
      generalize ht : (if s.length > columns then s.take columns else s) = t at hlen
      have hdrop : (s.drop t.length).length ≤ fuel := by
        rw [List.length_drop]
        omega
      obtain ⟨ps, hps, hcontent, hall, hchain, hnil⟩ := ih (s.drop t.length) hdrop
      refine ⟨Piece.quoted t :: ps, ?_, ?_, ?_, ?_, ?_⟩
      · simp only [writeStringConstWrap]
        rw [if_pos hs, ht, wrap_out, hps]
        rfl
      · rw [List.flatMap_cons, hcontent]
        show t ++ s.drop t.length = s
        have h3 := List.take_append_drop t.length s
        rw [← hlen.2.2] at h3
        exact h3
      · intro p hp
        rcases List.mem_cons.1 hp with hp | hp
        · exact ⟨t, hp, hlen.2.1, hlen.1⟩
        · exact hall p hp
      · apply List.Chain'.cons' hchain
        intro y hy t1 u h1 _
        cases h1
        by_cases hc : s.length > columns
        · rw [if_pos hc] at ht
          rw [← ht, List.length_take]
          exact Nat.min_eq_left (Nat.le_of_lt hc)
        · exfalso
          rw [if_neg hc] at ht
          rw [← ht, List.drop_length] at hnil
          rw [hnil rfl] at hy
          simp at hy
      · intro h0
        rw [h0] at hs
        simp at hs
    · have hs0 : s = [] := List.length_eq_zero.1 (Nat.eq_zero_of_not_pos hs)
      subst hs0
      exact ⟨[], by simp [writeStringConstWrap], rfl, by simp, List.chain'_nil, fun _ => rfl⟩


/-! ## The template embedder: the section loop -/

theorem splitSection_spec (s : List Byte) (hs : s ≠ []) :
    (splitSection s).1 ++ (splitSection s).2 = s ∧
      0 < (splitSection s).1.length ∧
      ((splitSection s).2 ≠ [] → dashDashDashDash <+: (splitSection s).2) := by
  unfold splitSection
  cases hi : bytesIndex (s.drop 1) dashDashDashDash with
  | none =>
    refine ⟨List.append_nil s, List.length_pos.2 hs, ?_⟩
    intro h
    exact absurd rfl h
  | some i =>
    refine ⟨List.take_append_drop _ _, ?_, ?_⟩
    · simp only [List.length_take]
      have := List.length_pos.2 hs
      omega
    · intro _
      have hp := bytesIndex_occurs _ _ _ hi
      rw [List.drop_drop] at hp
      simpa [Nat.add_comm] using hp

theorem splitSection_length (s : List Byte) (hs : s ≠ []) :
    (splitSection s).1.length ≤ s.length ∧ (splitSection s).2.length < s.length := by
  have h := splitSection_spec s hs
  have hl := congrArg List.length h.1
  rw [List.length_append] at hl
  omega

theorem writeStringConst_out (fuel : Nat) (out : List Piece) (s : List Byte) :
    writeStringConst fuel out s =
      (writeStringConst fuel [] s).map (fun ps => out ++ ps) := by
  induction fuel generalizing out s with
  | zero =>
    by_cases hs : s.length > 0
    · simp only [writeStringConst, if_pos hs]
      rfl
    · simp only [writeStringConst, if_neg hs]
      simp
  | succ fuel ih =>
    by_cases hs : s.length > 0
    · simp only [writeStringConst, if_pos hs]
      rw [wrap_out (fuel + 1) out]
      cases writeStringConstWrap (fuel + 1) [] (splitSection s).1 with
      | none => rfl
      | some ps =>
        simp only [Option.map_some']
        by_cases hr : (splitSection s).2.length > 0
        · simp only [if_pos hr]
          rw [ih (out ++ ps ++ _), ih (ps ++ _)]
          cases writeStringConst fuel [] (splitSection s).2 <;> simp
        · simp only [if_neg hr]
          rw [ih (out ++ ps), ih ps]
          cases writeStringConst fuel [] (splitSection s).2 <;> simp
    · simp only [writeStringConst, if_neg hs]
      simp

theorem sepOffsets_shift (n : Nat) (ps : List Piece) :
    sepOffsets n ps = (sepOffsets 0 ps).map (fun p => n + p) := by
  induction ps generalizing n with
  | nil => rfl
  | cons p ps ih =>
    cases p with
    | quoted t =>
      simp only [sepOffsets]
      rw [ih (n + t.length), ih (0 + t.length), List.map_map]
      apply List.map_congr_left
      intro a _
      simp only [Function.comp]
      omega
    | text x =>
      simp only [sepOffsets, List.map_cons, Nat.add_zero]
      rw [ih n]

theorem sepOffsets_quoted (n : Nat) (a b : List Piece)
    (ha : ∀ p ∈ a, ∃ t, p = Piece.quoted t) :
    sepOffsets n (a ++ b) = sepOffsets (n + (a.flatMap Piece.content).length) b := by
  induction a generalizing n with
  | nil => rfl
  | cons p a ih =>
    obtain ⟨t, ht⟩ := ha p (List.mem_cons_self _ _)
    subst ht
    rw [List.cons_append, sepOffsets, ih _ (fun q hq => ha q (List.mem_cons_of_mem _ hq))]
    simp only [List.flatMap_cons, Piece.content, List.length_append, Nat.add_assoc]

/-- What `writeStringConst` gives for the bytes `s` with enough iterations: the pieces hold
`s` in order, every literal has 1 to `columns` bytes, a literal followed by a literal has
`columns` bytes, every text piece is the separator and stands at an offset after the start
at which the marker occurs in `s`. -/
theorem writeStringConst_spec (fuel : Nat) (s : List Byte) (h : s.length ≤ fuel) :
    ∃ ps, writeStringConst fuel [] s = some ps ∧
      ps.flatMap Piece.content = s ∧
      (∀ t, Piece.quoted t ∈ ps → 0 < t.length ∧ t.length ≤ columns) ∧
      List.Chain' FullBefore ps ∧
      (∀ x, Piece.text x ∈ ps → x = "\"\" +\n") ∧
      (∀ p ∈ sepOffsets 0 ps, 0 < p ∧ dashDashDashDash <+: s.drop p) ∧
      (s = [] → ps = []) := by
  induction fuel generalizing s with
  | zero =>
    have hs : s = [] := List.length_eq_zero.1 (Nat.le_zero.1 h)
    subst hs
    exact ⟨[], by simp [writeStringConst], rfl, by simp, List.chain'_nil, by simp,
      by simp [sepOffsets], fun _ => rfl⟩
  | succ fuel ih =>
    by_cases hs : s.length > 0
    · have hne : s ≠ [] := List.length_pos.1 hs
      obtain ⟨hcat, hsecpos, hmark⟩ := splitSection_spec s hne
      obtain ⟨hseclen, hremlen⟩ := splitSection_length s hne
      generalize hsec : (splitSection s).1 = sec at hcat hsecpos hseclen
      generalize hrem : (splitSection s).2 = rem at hcat hmark hremlen
      obtain ⟨p1, hp1, hc1, hall1, hchain1, _⟩ :=
        wrap_spec (fuel + 1) sec (Nat.le_trans hseclen h)
      obtain ⟨p2, hp2, hc2, hall2, hchain2, htext2, hoff2, hnil2⟩ :=
        ih rem (by omega)
      have hq1 : ∀ p ∈ p1, ∃ t, p = Piece.quoted t := by
        intro p hp
        obtain ⟨t, ht, _⟩ := hall1 p hp
        exact ⟨t, ht⟩
      have hdrop : s.drop sec.length = rem := by
        rw [← hcat, List.drop_left]
      by_cases hr : rem.length > 0
      · refine ⟨p1 ++ Piece.text "\"\" +\n" :: p2, ?_, ?_, ?_, ?_, ?_, ?_, ?_⟩
        · simp only [writeStringConst, if_pos hs, hsec, hrem, hp1, if_pos hr]
          rw [writeStringConst_out, hp2]
          simp
        · rw [List.flatMap_append, List.flatMap_cons, hc1, hc2]
          exact hcat
        · intro t ht
          rcases List.mem_append.1 ht with ht | ht
          · obtain ⟨u, hu, hpos, hle⟩ := hall1 _ ht
            cases hu
            exact ⟨hpos, hle⟩
          · rcases List.mem_cons.1 ht with ht | ht
            · cases ht
            · exact hall2 t ht
        · rw [List.chain'_append]
          refine ⟨hchain1, ?_, ?_⟩
          · apply List.Chain'.cons' hchain2
            intro y _ t u ht _
            cases ht
          · intro x _ y hy t u _ hu
            simp only [List.head?_cons, Option.mem_def, Option.some.injEq] at hy
            rw [← hy] at hu
            cases hu
        · intro x hx
          rcases List.mem_append.1 hx with hx | hx
          · obtain ⟨u, hu, _⟩ := hall1 _ hx
            cases hu
          · rcases List.mem_cons.1 hx with hx | hx
            · cases hx
              rfl
            · exact htext2 x hx
        · intro p hp
          rw [sepOffsets_quoted 0 p1 _ hq1, hc1, Nat.zero_add, sepOffsets,
            sepOffsets_shift] at hp
          rcases List.mem_cons.1 hp with hp | hp
          · rw [hp, hdrop]
            exact ⟨hsecpos, hmark (List.length_pos.1 hr)⟩
          · obtain ⟨q, hq, hqp⟩ := List.mem_map.1 hp
            obtain ⟨hqpos, hqm⟩ := hoff2 q hq
            rw [← hqp, ← List.drop_drop, hdrop]
            exact ⟨by omega, hqm⟩
        · intro h0
          rw [h0] at hs
          simp at hs
      · have hrem0 : rem = [] := List.length_eq_zero.1 (Nat.eq_zero_of_not_pos hr)
        have hp20 : p2 = [] := hnil2 hrem0
        subst hp20
        refine ⟨p1, ?_, ?_, ?_, ?_, ?_, ?_, ?_⟩
        · simp only [writeStringConst, if_pos hs, hsec, hrem, hp1, if_neg hr]
          rw [writeStringConst_out, hp2]
          simp
        · rw [hc1, ← hcat, hrem0, List.append_nil]
        · intro t ht
          obtain ⟨u, hu, hpos, hle⟩ := hall1 _ ht
          cases hu
          exact ⟨hpos, hle⟩
        · exact hchain1
        · intro x hx
          obtain ⟨u, hu, _⟩ := hall1 _ hx
          cases hu
        · intro p hp
          have h0 := sepOffsets_quoted 0 p1 [] hq1
          rw [List.append_nil] at h0
          rw [h0] at hp
          simp [sepOffsets] at hp
        · intro h0
          rw [h0] at hs
          simp at hs
    · have hs0 : s = [] := List.length_eq_zero.1 (Nat.eq_zero_of_not_pos hs)
      subst hs0
      exact ⟨[], by simp [writeStringConst], rfl, by simp, List.chain'_nil, by simp,
        by simp [sepOffsets], fun _ => rfl⟩


/-! ## The claims on the template embedder -/

/-- C16: for every byte string `s`, `writeStringConst` (run with at least as many iterations
as `s` has bytes) appends pieces whose quoted literals, concatenated in order, hold exactly
`s`, the other pieces being the empty separator `"" +`; for the empty `s` it appends
nothing. -/
theorem writeStringConst_content (s : List Byte) (out : List Piece) (k : Nat) :
    (∃ ps, writeStringConst (s.length + k) out s = some (out ++ ps) ∧
        ps.flatMap Piece.content = s ∧
        ∀ x, Piece.text x ∈ ps → x = "\"\" +\n") ∧
      writeStringConst k out [] = some out := by
  constructor
  · obtain ⟨ps, hps, hc, _, _, htext, _, _⟩ :=
      writeStringConst_spec (s.length + k) s (Nat.le_add_right _ _)
    refine ⟨ps, ?_, hc, htext⟩
    rw [writeStringConst_out, hps]
    rfl
  · cases k <;> simp [writeStringConst]

/-- C17: for every byte string `s`, every quoted literal `writeStringConst` emits holds at
least 1 and at most 1024 bytes, and a literal that is followed at once by another literal,
which is every literal of a section but the last, holds exactly 1024 bytes. -/
theorem writeStringConst_wraps (s : List Byte) (out : List Piece) (k : Nat) :
    ∃ ps, writeStringConst (s.length + k) out s = some (out ++ ps) ∧
      (∀ t, Piece.quoted t ∈ ps → 1 ≤ t.length ∧ t.length ≤ 1024) ∧
      List.Chain'
        (fun p q => ∀ t u, p = Piece.quoted t → q = Piece.quoted u → t.length = 1024) ps := by
  obtain ⟨ps, hps, _, hall, hchain, _, _, _⟩ :=
    writeStringConst_spec (s.length + k) s (Nat.le_add_right _ _)
  refine ⟨ps, ?_, hall, hchain⟩
  rw [writeStringConst_out, hps]
  rfl

/-- C18, as stated, fails: for the bytes `a// ----` a separator is emitted at offset 1,
where the marker occurs but no line begins: the byte before it is `a`, not a newline. -/
theorem writeStringConst_sections_counterexample :
    writeStringConst 8 [] (ascii "a// ----") =
        some [Piece.quoted (ascii "a"), Piece.text "\"\" +\n", Piece.quoted (ascii "// ----")] ∧
      sepOffsets 0
          [Piece.quoted (ascii "a"), Piece.text "\"\" +\n", Piece.quoted (ascii "// ----")] =
        [1] ∧
      (ascii "a// ----")[0]? = some 97 ∧
      ¬ ∀ p ∈ sepOffsets 0
          [Piece.quoted (ascii "a"), Piece.text "\"\" +\n", Piece.quoted (ascii "// ----")],
        (p = 0 ∨ (ascii "a// ----")[p - 1]? = some 10) ∧
          dashDashDashDash <+: (ascii "a// ----").drop p := by
  decide

/-- C18, amended: for every byte string `s`, every separator `"" +` that
`writeStringConst` emits stands at an offset of `s` after its first byte at which the
marker `// ----` occurs; the offset need not be the beginning of a line. -/
theorem writeStringConst_sections (s : List Byte) (out : List Piece) (k : Nat) :
    ∃ ps, writeStringConst (s.length + k) out s = some (out ++ ps) ∧
      ∀ p ∈ sepOffsets 0 ps, 0 < p ∧ dashDashDashDash <+: s.drop p := by
  obtain ⟨ps, hps, _, _, _, _, hoff, _⟩ :=
    writeStringConst_spec (s.length + k) s (Nat.le_add_right _ _)
  refine ⟨ps, ?_, hoff⟩
  rw [writeStringConst_out, hps]
  rfl

/-- C20: `writeStringConst` terminates on every byte string `s`: with the length of `s`, or
more, as the bound on the iterations both loops come to their end, the section loop leaves a
non-empty section and fewer bytes on each iteration, and the wrapping loop leaves fewer
bytes on each iteration. -/
theorem writeStringConst_total (s : List Byte) (out : List Piece) (k : Nat) :
    (∃ ps, writeStringConst (s.length + k) out s = some ps) ∧
      (∃ ps, writeStringConstWrap (s.length + k) out s = some ps) ∧
      (∀ (b : Byte) (r : List Byte), (splitSection (b :: r)).1 ≠ [] ∧
        (splitSection (b :: r)).2.length < (b :: r).length) ∧
      (∀ (b : Byte) (r : List Byte), ((b :: r).drop
          (if (b :: r).length > columns then (b :: r).take columns else b :: r).length).length <
        (b :: r).length) := by
  refine ⟨?_, ?_, ?_, ?_⟩
  · obtain ⟨ps, hps, _⟩ := writeStringConst_spec (s.length + k) s (Nat.le_add_right _ _)
    exact ⟨out ++ ps, by rw [writeStringConst_out, hps]; rfl⟩
  · obtain ⟨ps, hps, _⟩ := wrap_spec (s.length + k) s (Nat.le_add_right _ _)
    exact ⟨out ++ ps, by rw [wrap_out, hps]; rfl⟩
  · intro b r
    have h1 := splitSection_spec (b :: r) (List.cons_ne_nil _ _)
    have h2 := splitSection_length (b :: r) (List.cons_ne_nil _ _)
    exact ⟨List.length_pos.1 h1.2.1, h2.2⟩
  · intro b r
    by_cases hc : (b :: r).length > columns
    · rw [if_pos hc, List.length_drop, List.length_take, Nat.min_eq_left (Nat.le_of_lt hc)]
      have : 0 < columns := by decide
      omega
    · rw [if_neg hc, List.drop_length]
      simp


theorem editing_not_copyright (inp : List Byte)
    (h : ascii "// After editing this file," <+: inp) : ¬ ascii "// Copyright " <+: inp := by
  intro hc
  have h2 : ascii "// Copyright " <+: ascii "// After editing this file," :=
    List.prefix_of_prefix_length_le hc h (by decide)
  revert h2
  decide

/-- C19, as stated, fails: a content that ends in its copyright block, with no blank line
after it, is accepted and the bytes passed to `writeStringConst` are the copyright block. -/
theorem genBaseStrip_counterexample :
    (genBaseStrip (fun _ => "") "base/all-impl.c" []
        (ascii "// After editing this file,\n\n// Copyright 2017")).toOption =
        some ([], ascii "// Copyright 2017") ∧
      ascii "// Copyright " <+: ascii "// Copyright 2017" := by
  decide

/-- C19, amended: `genBase` accepts a content exactly when it begins with
`// After editing this file,`, holds a blank line, and goes on after the first blank line
with `// Copyright `; else it returns an error.  For an accepted content the bytes passed to
`writeStringConst` are the input without the editing-instructions block and, when a blank
line follows the copyright block, without the copyright block; when none follows, they are
the input without the editing-instructions block only. -/
theorem genBaseStrip_spec (quote : List Byte → String) (filename : String)
    (copyright inp : List Byte) :
    ((∃ r, genBaseStrip quote filename copyright inp = Except.ok r) ↔
        (ascii "// After editing this file," <+: inp ∧
          ∃ i, bytesIndex inp (ascii "\n\n") = some i ∧
            ascii "// Copyright " <+: inp.drop (i + 2))) ∧
      (∀ r, genBaseStrip quote filename copyright inp = Except.ok r →
        ∃ edit rest, inp = edit ++ ascii "\n\n" ++ rest ∧
          bytesIndex inp (ascii "\n\n") = some edit.length ∧
          ((∃ copy, rest = copy ++ ascii "\n\n" ++ r.2 ∧
              bytesIndex rest (ascii "\n\n") = some copy.length) ∨
            (bytesIndex rest (ascii "\n\n") = none ∧ r.2 = rest))) := by
  have hsplit : ∀ (s : List Byte) (i : Nat), bytesIndex s (ascii "\n\n") = some i →
      s = s.take i ++ ascii "\n\n" ++ s.drop (i + 2) ∧ (s.take i).length = i := by
    intro s i hi
    have h1 := bytesIndex_split _ s i hi
    refine ⟨h1, ?_⟩
    have h2 := congrArg List.length h1
    rw [List.length_append, List.length_append, List.length_take, List.length_drop] at h2
    rw [List.length_take]
    have h3 : (ascii "\n\n").length = 2 := rfl
    omega
  by_cases hA : ascii "// After editing this file," <+: inp
  · have hA2 : hasPrefix inp (ascii "// After editing this file,") = true :=
      List.isPrefixOf_iff_prefix.2 hA
    cases hi : bytesIndex inp (ascii "\n\n") with
    | none =>
      have hC : hasPrefix inp (ascii "// Copyright ") = false := by
        cases hb : hasPrefix inp (ascii "// Copyright ") with
        | false => rfl
        | true => exact absurd (List.isPrefixOf_iff_prefix.1 hb) (editing_not_copyright inp hA)
      have hval : ∃ e, genBaseStrip quote filename copyright inp = Except.error e := by
        unfold genBaseStrip
        simp only [hA2, hi, hC, Bool.not_true, Bool.not_false, Bool.false_eq_true, if_false,
          if_true]
        exact ⟨_, rfl⟩
      obtain ⟨e, he⟩ := hval
      rw [he]
      constructor
      · constructor
        · rintro ⟨r, hr⟩
          cases hr
        · rintro ⟨_, i, hi2, _⟩
          cases hi2
      · intro r hr
        cases hr
    | some i =>
      obtain ⟨hinp, htake⟩ := hsplit inp i hi
      by_cases hC : ascii "// Copyright " <+: inp.drop (i + 2)
      · have hC2 : hasPrefix (inp.drop (i + 2)) (ascii "// Copyright ") = true :=
          List.isPrefixOf_iff_prefix.2 hC
        cases hj : bytesIndex (inp.drop (i + 2)) (ascii "\n\n") with
        | none =>
          have hval : genBaseStrip quote filename copyright inp =
              Except.ok (copyright, inp.drop (i + 2)) := by
            unfold genBaseStrip
            simp only [hA2, hi, hC2, hj, Bool.not_true, Bool.false_eq_true, if_false]
          rw [hval]
          constructor
          · exact ⟨fun _ => ⟨hA, i, rfl, hC⟩, fun _ => ⟨_, rfl⟩⟩
          · intro r hr
            cases hr
            refine ⟨inp.take i, inp.drop (i + 2), hinp, by rw [htake], Or.inr ⟨hj, rfl⟩⟩
        | some j =>
          obtain ⟨hrest, htake2⟩ := hsplit (inp.drop (i + 2)) j hj
          have hval : genBaseStrip quote filename copyright inp =
              Except.ok (if copyright.length = 0 then (inp.drop (i + 2)).take (j + 2)
                else copyright, (inp.drop (i + 2)).drop (j + 2)) := by
            unfold genBaseStrip
            simp only [hA2, hi, hC2, hj, Bool.not_true, Bool.false_eq_true, if_false]
          rw [hval]
          constructor
          · exact ⟨fun _ => ⟨hA, i, rfl, hC⟩, fun _ => ⟨_, rfl⟩⟩
          · intro r hr
            cases hr
            refine ⟨inp.take i, inp.drop (i + 2), hinp, by rw [htake],
              Or.inl ⟨(inp.drop (i + 2)).take j, hrest, by rw [htake2]; exact hj⟩⟩
      · have hC2 : hasPrefix (inp.drop (i + 2)) (ascii "// Copyright ") = false := by
          cases hb : hasPrefix (inp.drop (i + 2)) (ascii "// Copyright ") with
          | false => rfl
          | true => exact absurd (List.isPrefixOf_iff_prefix.1 hb) hC
        have hval : ∃ e, genBaseStrip quote filename copyright inp = Except.error e := by
          unfold genBaseStrip
          simp only [hA2, hi, hC2, Bool.not_true, Bool.not_false, Bool.false_eq_true, if_false,
            if_true]
          exact ⟨_, rfl⟩
        obtain ⟨e, he⟩ := hval
        rw [he]
        constructor
        · constructor
          · rintro ⟨r, hr⟩
            cases hr
          · rintro ⟨_, i2, hi2, hc2⟩
            cases hi2
            exact absurd hc2 hC
        · intro r hr
          cases hr
  · have hA2 : hasPrefix inp (ascii "// After editing this file,") = false := by
      cases hb : hasPrefix inp (ascii "// After editing this file,") with
      | false => rfl
      | true => exact absurd (List.isPrefixOf_iff_prefix.1 hb) hA
    have hval : ∃ e, genBaseStrip quote filename copyright inp = Except.error e := by
      unfold genBaseStrip
      simp only [hA2, Bool.not_false, if_true]
      exact ⟨_, rfl⟩
    obtain ⟨e, he⟩ := hval
    rw [he]
    constructor
    · constructor
      · rintro ⟨r, hr⟩
        cases hr
      · rintro ⟨h, _⟩
        exact absurd h hA
    · intro r hr
      cases hr


end Cgen
